import Mathlib

/-!
Verification of the Family-Tree-Builder core (graph layout and relationship
inference) against its natural-language specification.

The definitions below are a shallow embedding of the TypeScript sources
`frontend/lib/types.ts`, `frontend/lib/cycles.ts` (which also holds the JSON
module and the relationships module) and `frontend/lib/tree-layout.ts`.
JavaScript numbers are modelled as rationals (all arithmetic performed by the
layout code — addition, halving, min/max — is exact on floats for the values
involved). JS `Map`/`Set` objects are modelled as association lists or
functions; a `Map` built with `new Map(entries)` keeps the last entry for a
duplicated key, while `Array.prototype.find` returns the first match, and the
embedding mirrors that distinction.  Loops carried by a work queue in the
source have no syntactic termination measure, so they are embedded with an
explicit fuel parameter; theorems about a loop's final state take the
hypothesis that the run completed (queue emptied) rather than exhausting the
artificial fuel, which is the case on every input on which the source loop
terminates.
-/

/-- 2-D coordinate, `types.ts` `Position`. JS numbers are modelled as `ℚ`. -/
structure Position where
  x : ℚ
  y : ℚ
deriving DecidableEq, Repr

/-- `types.ts` `Person`, restricted to the fields the core algorithms read
(display-only fields such as `surname`, `occupation`, `birth`, `marriages`
play no role in layout or relationship inference and are omitted).
`gender` is one of `"male" | "female" | "other" | ""`, kept as a string. -/
structure Person where
  id : String
  givenName : String
  gender : String
  parentIds : List String
  spouseIds : List String
  childIds : List String
  position : Option Position
deriving DecidableEq, Repr

/-- First person in the list with the given id: `people.find(p => p.id === id)`. -/
def findById (people : List Person) (pid : String) : Option Person :=
  people.find? (fun p => p.id = pid)

/-- Lookup in `new Map(people.map(p => [p.id, p]))`: for a duplicated id the
last occurrence wins, hence the search over the reversed list. -/
def mapById (people : List Person) (pid : String) : Option Person :=
  people.reverse.find? (fun p => p.id = pid)

namespace Cycles

/-- The children map of `wouldCreateCycle` (`cycles.ts` lines 20–31): every
person's id is keyed; then each person is appended (without deduplication, one
occurrence per matching `parentIds` entry) to the bucket of each of its
parents, provided that parent id is itself a key of the map. -/
def childrenOf (people : List Person) (pid : String) : List String :=
  if (people.map Person.id).contains pid then
    people.flatMap (fun q => (q.parentIds.filter (fun r => r = pid)).map (fun _ => q.id))
  else []

/-- Parent list the ancestor loop expands: `peopleMap.get(currentId)` followed
by `person.parentIds`; a missing person contributes nothing. -/
def parentsOf (people : List Person) (pid : String) : List String :=
  match mapById people pid with
  | some p => p.parentIds
  | none => []

/-- The first BFS of `wouldCreateCycle` (lines 33–46).  In the source the
`return true` sits inside a `forEach` callback, so it only exits the callback:
the loop can never return from `wouldCreateCycle` and its sole product is the
local `visited` set, which is returned here.  A child equal to
`potentialParentId` escapes the callback before the `queue.push`, so it is
filtered out of the pushes.  The fuel is an embedding artifact; the result is
unused. -/
def descendantSweep (people : List Person) (potentialParentId : String) :
    Nat → Finset String → List String → Finset String
  | _, visited, [] => visited
  | 0, visited, _ :: _ => visited
  | fuel + 1, visited, c :: rest =>
    if c ∈ visited then descendantSweep people potentialParentId fuel visited rest
    else
      descendantSweep people potentialParentId fuel (insert c visited)
        (rest ++ (childrenOf people c).filter (fun d => ¬ d = potentialParentId))

/-- The second loop of `wouldCreateCycle` (lines 49–67): walk upward from
`potentialParentId` through `parentIds`, returning true on reaching `childId`.
Returns `false` both when the queue empties and when the fuel runs out; the
fuel passed by `wouldCreateCycle` is large enough that the latter never
happens (see `ancestorLoop_completes`-style fuel accounting in the proofs). -/
def ancestorLoop (people : List Person) (childId : String) :
    Nat → Finset String → List String → Bool
  | _, _, [] => false
  | 0, _, _ :: _ => false
  | fuel + 1, visited, c :: rest =>
    if c ∈ visited then ancestorLoop people childId fuel visited rest
    else if c = childId then true
    else ancestorLoop people childId fuel (insert c visited) (rest ++ parentsOf people c)

/-- Ids that can ever sit in the ancestor queue: the seed together with every
`parentIds` entry of every person. -/
def idUniverse (people : List Person) (seed : String) : Finset String :=
  (seed :: people.flatMap Person.parentIds).toFinset

/-- Upper bound on the length of any one `parentIds` list. -/
def maxParents (people : List Person) : Nat :=
  (people.map (fun p => p.parentIds.length)).foldr Nat.max 0

/-- Fuel that provably outlasts the ancestor loop. -/
def cycleFuel (people : List Person) (seed : String) : Nat :=
  ((idUniverse people seed).card + 1) * (maxParents people + 2)

/-- `cycles.ts` `wouldCreateCycle` (lines 4–70).  The self-parent check, the
(ineffective) descendant sweep, then the ancestor walk. -/
def wouldCreateCycle (people : List Person) (childId potentialParentId : String) : Bool :=
  if childId = potentialParentId then true
  else
    let _sweep := descendantSweep people potentialParentId
      (cycleFuel people childId) ∅ [childId]
    ancestorLoop people childId (cycleFuel people potentialParentId) ∅ [potentialParentId]

end Cycles

/-- `b` is an ancestor of `a` through `parentIds` entries of persons present in
the list: the "descendant" relation of the specification, read upward. -/
inductive ReachesUp (people : List Person) : String → String → Prop
  | refl (a : String) : ReachesUp people a a
  | step {a c : String} (b : String) (p : Person) (hp : p ∈ people) (hid : p.id = a)
      (hb : b ∈ p.parentIds) (h : ReachesUp people b c) : ReachesUp people a c

namespace Relationships

/-- Result record of `findRelationship` (`relationships` module in
`cycles.ts`, `RelationshipResult`). -/
structure RelationshipResult where
  english : String
  tamil : String
  path : List String
deriving DecidableEq, Repr

/-- Sequential `for`-loop with early `return`: first `some` produced wins. -/
def firstSome {α β : Type} (f : α → Option β) : List α → Option β
  | [] => none
  | a :: as =>
    match f a with
    | some b => some b
    | none => firstSome f as

/-- `findPath` (lines 202–237): depth-first search over parent, then child,
then spouse edges.  Each recursive call receives a copy of the caller's
visited set extended with the caller's node (`new Set(visited)` after
`visited.add(fromId)`), and the path accumulated so far.  The recursion has
no syntactic measure, hence the fuel; `findRelationship` passes fuel that
exceeds the maximal recursion depth (one plus the number of distinct ids
reachable), so fuel exhaustion never occurs on the source's behaviour. -/
def findPath (people : List Person) :
    Nat → String → String → List String → List String → Option (List String)
  | 0, _, _, _, _ => none
  | fuel + 1, fromId, toId, visited, path =>
    if fromId = toId then some (path ++ [fromId])
    else if visited.contains fromId then none
    else
      match findById people fromId with
      | none => none
      | some current =>
        let path' := path ++ [fromId]
        let visited' := fromId :: visited
        firstSome (fun nid => findPath people fuel nid toId visited' path')
          (current.parentIds ++ current.childIds ++ current.spouseIds)

/-- Fuel for `findPath`: strictly more than any possible recursion depth
(every recursion level adds a fresh id to the visited set, and ids are drawn
from the start id and the relationship arrays of present persons). -/
def pathFuel (people : List Person) : Nat :=
  1 + people.length +
    (people.map (fun p => p.parentIds.length + p.childIds.length + p.spouseIds.length)).sum

/-- `getGenerationDiff` (lines 240–257): walk the path, −1 per parent hop,
+1 per child hop, 0 otherwise; hops with a missing endpoint contribute 0. -/
def getGenerationDiff (people : List Person) (path : List String) : Int :=
  match path with
  | [] => 0
  | _ :: rest =>
    (path.zip rest).foldl
      (fun acc pr =>
        match findById people pr.1, findById people pr.2 with
        | some current, some next =>
          if next.id ∈ current.parentIds then acc - 1
          else if next.id ∈ current.childIds then acc + 1
          else acc
        | _, _ => acc)
      0

/-- `goesThoughSpouse` (lines 260–271). -/
def goesThoughSpouse (people : List Person) (path : List String) : Bool :=
  match path with
  | [] => false
  | _ :: rest =>
    (path.zip rest).any
      (fun pr =>
        match findById people pr.1, findById people pr.2 with
        | some current, some next => next.id ∈ current.spouseIds
        | _, _ => false)

/-- Gendered label selection used by every direct rule: the label names
person2's role, chosen by person2's gender. -/
def genderLabel (g : String) (male female neutral : RelationshipResult) :
    RelationshipResult :=
  if g = "male" then male else if g = "female" then female else neutral

/-- Rule 6: grandparent (person2 is a parent of one of person1's parents). -/
def ruleGrandparent (people : List Person) (p1 p2 : Person) (path : List String) :
    Option RelationshipResult :=
  firstSome
    (fun parentId =>
      match findById people parentId with
      | some parent =>
        if p2.id ∈ parent.parentIds then
          some (genderLabel p2.gender
            ⟨"Grandfather", "தாத்தா", path⟩
            ⟨"Grandmother", "பாட்டி", path⟩
            ⟨"Grandparent", "பாட்டி/தாத்தா", path⟩)
        else none
      | none => none)
    p1.parentIds

/-- Rule 7: grandchild (person2 is a child of one of person1's children). -/
def ruleGrandchild (people : List Person) (p1 p2 : Person) (path : List String) :
    Option RelationshipResult :=
  firstSome
    (fun childId =>
      match findById people childId with
      | some child =>
        if p2.id ∈ child.childIds then
          some (genderLabel p2.gender
            ⟨"Grandson", "பேரன்", path⟩
            ⟨"Granddaughter", "பேத்தி", path⟩
            ⟨"Grandchild", "பேரக்குழந்தை", path⟩)
        else none
      | none => none)
    p1.childIds

/-- Rule 8: great-grandparent. -/
def ruleGreatGrandparent (people : List Person) (p1 p2 : Person) (path : List String) :
    Option RelationshipResult :=
  firstSome
    (fun parentId =>
      match findById people parentId with
      | some parent =>
        firstSome
          (fun gpId =>
            match findById people gpId with
            | some gp =>
              if p2.id ∈ gp.parentIds then
                some (genderLabel p2.gender
                  ⟨"Great Grandfather", "கொள்ளுத் தாத்தா", path⟩
                  ⟨"Great Grandmother", "கொள்ளுப் பாட்டி", path⟩
                  ⟨"Great Grandparent", "கொள்ளுத் தாத்தா/பாட்டி", path⟩)
              else none
            | none => none)
          parent.parentIds
      | none => none)
    p1.parentIds

/-- Rule 9: great-grandchild. -/
def ruleGreatGrandchild (people : List Person) (p1 p2 : Person) (path : List String) :
    Option RelationshipResult :=
  firstSome
    (fun childId =>
      match findById people childId with
      | some child =>
        firstSome
          (fun gcId =>
            match findById people gcId with
            | some gc =>
              if p2.id ∈ gc.childIds then
                some (genderLabel p2.gender
                  ⟨"Great Grandson", "கொள்ளுப்பேரன்", path⟩
                  ⟨"Great Granddaughter", "கொள்ளுப்பேத்தி", path⟩
                  ⟨"Great Grandchild", "கொள்ளுப்பேரக்குழந்தை", path⟩)
              else none
            | none => none)
          child.childIds
      | none => none)
    p1.childIds

/-- Siblings of a person with the given id and parent list: persons with a
different id sharing at least one parent (lines 401–404, 446–449, ...). -/
def siblingsOf (people : List Person) (pid : String) (parentIds : List String) :
    List Person :=
  people.filter (fun p => ¬ p.id = pid ∧ p.parentIds.any (fun q => q ∈ parentIds))

/-- Rule 10: uncle/aunt — for each parent, person2 is either a sibling of the
parent (maternal/paternal by the parent's gender) or the spouse of such a
sibling (by-marriage labels). -/
def ruleUncleAunt (people : List Person) (p1 p2 : Person) (path : List String) :
    Option RelationshipResult :=
  firstSome
    (fun parentId =>
      match findById people parentId with
      | some parent =>
        let parentSiblings := siblingsOf people parentId parent.parentIds
        if parentSiblings.any (fun s => s.id = p2.id) then
          some
            (if p2.gender = "male" then
              (if parent.gender = "female" then
                ⟨"Maternal Uncle", "மாமா (தாய் மாமா)", path⟩
              else ⟨"Paternal Uncle", "சித்தப்பா / பெரியப்பா", path⟩)
            else if p2.gender = "female" then
              (if parent.gender = "female" then
                ⟨"Maternal Aunt", "சித்தி / பெரியம்மா", path⟩
              else ⟨"Paternal Aunt", "அத்தை", path⟩)
            else ⟨"Uncle/Aunt", "மாமா/அத்தை", path⟩)
        else
          firstSome
            (fun sibling =>
              if p2.id ∈ sibling.spouseIds then
                some
                  (if p2.gender = "male" then
                    (if parent.gender = "female" then
                      ⟨"Uncle (by marriage)", "மாமா", path⟩
                    else ⟨"Uncle (by marriage)", "சித்தப்பா / பெரியப்பா", path⟩)
                  else
                    (if parent.gender = "male" then
                      ⟨"Aunt (by marriage)", "மாமி", path⟩
                    else ⟨"Aunt (by marriage)", "சித்தி / பெரியம்மா", path⟩))
              else none)
            parentSiblings
      | none => none)
    p1.parentIds

/-- Rule 11: nephew/niece — person2 is a child of a sibling of person1. -/
def ruleNephewNiece (people : List Person) (p1 p2 : Person) (path : List String) :
    Option RelationshipResult :=
  firstSome
    (fun sibling =>
      if p2.id ∈ sibling.childIds then
        some (genderLabel p2.gender
          ⟨"Nephew", "மருமகன் (சகோதரன்/சகோதரியின் மகன்)", path⟩
          ⟨"Niece", "மருமகள் (சகோதரன்/சகோதரியின் மகள்)", path⟩
          ⟨"Nephew/Niece", "மருமகன்/மருமகள்", path⟩)
      else none)
    (siblingsOf people p1.id p1.parentIds)

/-- Rule 12: cousin — person2 is a child of a sibling of one of person1's
parents. -/
def ruleCousin (people : List Person) (p1 p2 : Person) (path : List String) :
    Option RelationshipResult :=
  firstSome
    (fun parentId =>
      match findById people parentId with
      | some parent =>
        firstSome
          (fun uncle =>
            if p2.id ∈ uncle.childIds then
              some (genderLabel p2.gender
                ⟨"Cousin Brother", "மாமா/அத்தை மகன் (உறவு சகோதரன்)", path⟩
                ⟨"Cousin Sister", "மாமா/அத்தை மகள் (உறவு சகோதரி)", path⟩
                ⟨"Cousin", "உறவினர்", path⟩)
            else none)
          (siblingsOf people parentId parent.parentIds)
      | none => none)
    p1.parentIds

/-- Rule 13: parent-in-law — person2 is a parent of a spouse of person1. -/
def ruleParentInLaw (people : List Person) (p1 p2 : Person) (path : List String) :
    Option RelationshipResult :=
  firstSome
    (fun spouseId =>
      match findById people spouseId with
      | some spouse =>
        if p2.id ∈ spouse.parentIds then
          some (genderLabel p2.gender
            ⟨"Father-in-law", "மாமனார்", path⟩
            ⟨"Mother-in-law", "மாமியார்", path⟩
            ⟨"Parent-in-law", "மாமனார்/மாமியார்", path⟩)
        else none
      | none => none)
    p1.spouseIds

/-- Rule 14: child-in-law — person2 is a spouse of a child of person1. -/
def ruleChildInLaw (people : List Person) (p1 p2 : Person) (path : List String) :
    Option RelationshipResult :=
  firstSome
    (fun childId =>
      match findById people childId with
      | some child =>
        if p2.id ∈ child.spouseIds then
          some (genderLabel p2.gender
            ⟨"Son-in-law", "மருமகன்", path⟩
            ⟨"Daughter-in-law", "மருமகள்", path⟩
            ⟨"Child-in-law", "மருமகன்/மருமகள்", path⟩)
        else none
      | none => none)
    p1.childIds

/-- Rule 15: sibling-in-law as spouse's sibling. -/
def ruleSpouseSibling (people : List Person) (p1 p2 : Person) (path : List String) :
    Option RelationshipResult :=
  firstSome
    (fun spouseId =>
      match findById people spouseId with
      | some spouse =>
        if (siblingsOf people spouseId spouse.parentIds).any (fun s => s.id = p2.id) then
          some (genderLabel p2.gender
            ⟨"Brother-in-law", "மைத்துனர் / மச்சான்", path⟩
            ⟨"Sister-in-law", "நாத்தனார் / மைத்துனி", path⟩
            ⟨"Sibling-in-law", "மைத்துனர்/நாத்தனார்", path⟩)
        else none
      | none => none)
    p1.spouseIds

/-- Rule 16: sibling-in-law as sibling's spouse (labels keyed by both
genders). -/
def ruleSiblingSpouse (people : List Person) (p1 p2 : Person) (path : List String) :
    Option RelationshipResult :=
  firstSome
    (fun sibling =>
      if p2.id ∈ sibling.spouseIds then
        some
          (if p1.gender = "male" then
            (if p2.gender = "male" then ⟨"Brother-in-law", "மச்சான் / அத்தான்", path⟩
            else ⟨"Sister-in-law", "அண்ணி / மைத்துனி", path⟩)
          else
            (if p2.gender = "male" then ⟨"Brother-in-law", "அத்தான் / மச்சான்", path⟩
            else ⟨"Sister-in-law", "அண்ணி", path⟩))
      else none)
    (siblingsOf people p1.id p1.parentIds)

/-- Rule 17: co-brother / co-sister — spouse's sibling's spouse; a person2 of
neither listed gender falls through the inner `if` chain without returning,
so it yields `none` and the search continues. -/
def ruleCoSibling (people : List Person) (p1 p2 : Person) (path : List String) :
    Option RelationshipResult :=
  firstSome
    (fun spouseId =>
      match findById people spouseId with
      | some spouse =>
        firstSome
          (fun spouseSibling =>
            if p2.id ∈ spouseSibling.spouseIds then
              (if p2.gender = "male" then some ⟨"Co-Brother", "சகலை", path⟩
              else if p2.gender = "female" then some ⟨"Co-Sister", "ஓரகத்தி", path⟩
              else none)
            else none)
          (siblingsOf people spouseId spouse.parentIds)
      | none => none)
    p1.spouseIds

/-- Fallback result (lines 573–585). -/
def fallbackResult (people : List Person) (path : List String) : RelationshipResult :=
  let genDiff := getGenerationDiff people path
  if genDiff < -2 then
    ⟨"Ancestor (" ++ toString genDiff.natAbs ++ " generations)",
      "மூதாதையர் (" ++ toString genDiff.natAbs ++ " தலைமுறை)", path⟩
  else if genDiff > 2 then
    ⟨"Descendant (" ++ toString genDiff.natAbs ++ " generations)",
      "வழித்தோன்றல் (" ++ toString genDiff.natAbs ++ " தலைமுறை)", path⟩
  else if goesThoughSpouse people path then
    ⟨"Relative by marriage", "திருமண உறவினர்", path⟩
  else ⟨"Relative", "உறவினர்", path⟩

/-- `findRelationship` (lines 274–586): same-person check, path search, then
the rule cascade in source order, ending in the generation-difference
fallback. -/
def findRelationship (people : List Person) (person1 person2 : Person) :
    RelationshipResult :=
  if person1.id = person2.id then ⟨"Same Person", "ஒரே நபர்", [person1.id]⟩
  else
    match findPath people (pathFuel people) person1.id person2.id [] [] with
    | none => ⟨"No direct relationship found", "நேரடி உறவு இல்லை", []⟩
    | some path =>
      if person2.id ∈ person1.spouseIds then
        genderLabel person2.gender
          ⟨"Husband", "கணவர்", path⟩ ⟨"Wife", "மனைவி", path⟩
          ⟨"Spouse", "கணவன் / மனைவி", path⟩
      else if person2.id ∈ person1.parentIds then
        genderLabel person2.gender
          ⟨"Father", "அப்பா", path⟩ ⟨"Mother", "அம்மா", path⟩
          ⟨"Parent", "பெற்றோர்", path⟩
      else if person2.id ∈ person1.childIds then
        genderLabel person2.gender
          ⟨"Son", "மகன்", path⟩ ⟨"Daughter", "மகள்", path⟩
          ⟨"Child", "குழந்தை", path⟩
      else if (person1.parentIds.filter (fun pid => pid ∈ person2.parentIds)) ≠ [] then
        genderLabel person2.gender
          ⟨"Brother", "சகோதரன்", path⟩ ⟨"Sister", "சகோதரி", path⟩
          ⟨"Sibling", "உடன்பிறந்தவர்", path⟩
      else
        match ruleGrandparent people person1 person2 path with
        | some r => r
        | none =>
        match ruleGrandchild people person1 person2 path with
        | some r => r
        | none =>
        match ruleGreatGrandparent people person1 person2 path with
        | some r => r
        | none =>
        match ruleGreatGrandchild people person1 person2 path with
        | some r => r
        | none =>
        match ruleUncleAunt people person1 person2 path with
        | some r => r
        | none =>
        match ruleNephewNiece people person1 person2 path with
        | some r => r
        | none =>
        match ruleCousin people person1 person2 path with
        | some r => r
        | none =>
        match ruleParentInLaw people person1 person2 path with
        | some r => r
        | none =>
        match ruleChildInLaw people person1 person2 path with
        | some r => r
        | none =>
        match ruleSpouseSibling people person1 person2 path with
        | some r => r
        | none =>
        match ruleSiblingSpouse people person1 person2 path with
        | some r => r
        | none =>
        match ruleCoSibling people person1 person2 path with
        | some r => r
        | none => fallbackResult people path

end Relationships

/-- Connectivity through parent, child or spouse entries of present persons:
the notion of "a path exists" used by the disconnected-pair claim. -/
inductive Reaches (people : List Person) : String → String → Prop
  | refl (a : String) : Reaches people a a
  | step {a c : String} (b : String) (p : Person) (hp : p ∈ people) (hid : p.id = a)
      (hb : b ∈ p.parentIds ++ p.childIds ++ p.spouseIds) (h : Reaches people b c) :
      Reaches people a c

namespace TreeLayout

/-- Layout constants, `tree-layout.ts` lines 4–8 and 175–177. -/
def NODE_RADIUS : ℚ := 45

def HORIZONTAL_SPACING : ℚ := 180

def VERTICAL_SPACING : ℚ := 180

def SPOUSE_SPACING : ℚ := 100

def CANVAS_PADDING : ℚ := 100

def UNIT_SPACING : ℚ := 60

/-- `CHILD_SPACING = HORIZONTAL_SPACING`. -/
def CHILD_SPACING : ℚ := HORIZONTAL_SPACING

/-- `COUPLE_GAP = SPOUSE_SPACING`. -/
def COUPLE_GAP : ℚ := SPOUSE_SPACING

/-- `buildChildrenMap` (lines 17–34): bucket of `pid` holds, in people order,
each person listing `pid` among its parents, deduplicated
(`!children.includes(person.id)`), and only ids of present persons are
keys. -/
def buildChildrenMap (people : List Person) (pid : String) : List String :=
  if (people.map Person.id).contains pid then
    people.foldl
      (fun acc q =>
        if pid ∈ q.parentIds ∧ ¬ acc.contains q.id then acc ++ [q.id] else acc) []
  else []

/-- `findRoots` (lines 37–39): people whose own `parentIds` array is empty
(presence of the referenced parents is not consulted). -/
def findRoots (people : List Person) : List Person :=
  people.filter (fun p => p.parentIds.isEmpty)

/-- The `generations` map, as a function from id to assigned generation. -/
abbrev GMap := String → Option Nat

/-- The conditional `generations.set(id, gen)` guarded by
`!generations.has(id) || generations.get(id)! < gen`: the stored value only
ever rises, so the net effect is raise-to-max. -/
def updGen (gens : GMap) (pid : String) (g : Nat) : GMap :=
  fun x =>
    if x = pid then
      some (match gens pid with | none => g | some old => Nat.max old g)
    else gens x

/-- The BFS work loop of `calculateGenerations` (lines 51–65).  One queue
entry is consumed per step: raise the popped id's generation, then enqueue
every child whose current generation is absent or below `gen + 1`.  The
Boolean records whether the queue emptied (the source loop simply runs until
it does; the fuel is an embedding artifact). -/
def calcGenLoop (people : List Person) :
    Nat → GMap → List (String × Nat) → GMap × Bool
  | _, gens, [] => (gens, true)
  | 0, gens, _ :: _ => (gens, false)
  | fuel + 1, gens, (pid, g) :: rest =>
    let gens' := updGen gens pid g
    let pushes :=
      ((buildChildrenMap people pid).filter
        (fun c => match gens' c with | none => true | some cg => cg < g + 1)).map
        (fun c => (c, g + 1))
    calcGenLoop people fuel gens' (rest ++ pushes)

/-- Fuel passed to the BFS; generous for the graphs considered in the
theorems, all of which carry the hypothesis that the run completed. -/
def genFuel (people : List Person) : Nat :=
  (people.length + 1) * (people.length + 1) *
    ((people.flatMap Person.parentIds).length + 2)

/-- Generations assigned by the BFS alone (before the disconnected-node
default pass of lines 68–72). -/
def bfsAssign (people : List Person) : GMap :=
  (calcGenLoop people (genFuel people) (fun _ => none)
    ((findRoots people).map (fun r => (r.id, 0)))).1

/-- Whether the BFS queue emptied within the allotted fuel. -/
def calcGenCompleted (people : List Person) : Bool :=
  (calcGenLoop people (genFuel people) (fun _ => none)
    ((findRoots people).map (fun r => (r.id, 0)))).2

/-- `calculateGenerations` (lines 42–75): the BFS result, then generation 0
for every present person the BFS never reached. -/
def calculateGenerations (people : List Person) : GMap :=
  fun x =>
    match bfsAssign people x with
    | some g => some g
    | none => if (people.map Person.id).contains x then some 0 else none

/-- One bucket of `groupByGeneration` (lines 78–90): people of generation
`g`, in people order (the order the source pushes them into the bucket). -/
def genGroup (people : List Person) (gens : GMap) (g : Nat) : List Person :=
  people.filter (fun p => (gens p.id).getD 0 = g)

/-- `areSpouses` (lines 93–95). -/
def areSpouses (p1 p2 : Person) : Bool :=
  p1.spouseIds.contains p2.id || p2.spouseIds.contains p1.id

/-- `Math.max(...Array.from(generations.values()))`: after the default pass
the map's keys are exactly the present ids, so the maximum ranges over the
people's generations. -/
def maxGeneration (people : List Person) (gens : GMap) : Nat :=
  (people.map (fun p => (gens p.id).getD 0)).foldr Nat.max 0

/-- Stable insertion step: the new element goes after every already placed
element it does not compare strictly below, matching the stable sort of
`Array.prototype.sort`. -/
def insertSorted {α : Type} (cmp : α → α → Int) (a : α) : List α → List α
  | [] => [a]
  | b :: bs => if cmp a b < 0 then a :: b :: bs else b :: insertSorted cmp a bs

/-- Stable sort by a JS comparator (elements inserted left to right). -/
def jsSort {α : Type} (cmp : α → α → Int) (l : List α) : List α :=
  l.foldl (fun acc x => insertSorted cmp x acc) []

/-- Default string comparison of `Array.prototype.sort` (UTF-16 code-unit
order), and the model used for `localeCompare`; the two coincide on the
ASCII identifiers and names exercised by the theorems. -/
def strCmp (a b : String) : Int :=
  if a < b then -1 else if a = b then 0 else 1

/-- `[ids].sort().join('-')` key used for parent pairs and sibling groups. -/
def jsKey (ids : List String) : String :=
  String.intercalate "-" (jsSort strCmp ids)

/-- The sibling comparator of the bottom row (lines 215–219): spouses compare
equal, everyone else by given name. -/
def siblingCmp (a b : Person) : Int :=
  if areSpouses a b then 0 else strCmp a.givenName b.givenName

/-- `String.prototype.includes`: code-unit subsequence (contiguous) test. -/
def seqStarts (pat s : List Char) : Bool :=
  match pat, s with
  | [], _ => true
  | _ :: _, [] => false
  | a :: as, b :: bs => a = b && seqStarts as bs

def seqContains (s pat : List Char) : Bool :=
  match s with
  | [] => pat.isEmpty
  | _ :: rest => seqStarts pat s || seqContains rest pat

def strIncludes (s sub : String) : Bool := seqContains s.data sub.data

/-- `nodePositions` / `positionedIds` state: insertion-ordered association
list and id list (`Map.set` only ever sees fresh keys here because every
write is guarded by `positionedIds`). -/
abbrev NP := List (String × Position)

abbrev PI := List String

def npLookup (np : NP) (pid : String) : Option Position :=
  (np.find? (fun e => e.1 = pid)).map Prod.snd

/-- `Math.min(...)` / `Math.max(...)` over a list known to be non-empty at
every call site (the value on `[]` is arbitrary). -/
def minQ : List ℚ → ℚ
  | [] => 0
  | x :: xs => xs.foldl min x

def maxQ : List ℚ → ℚ
  | [] => 0
  | x :: xs => xs.foldl max x

/-- `spousesInGen` filter (lines 245–248 and 265–268): spouse ids whose
person exists and whose generation equals `g`. -/
def spousesInGen (people : List Person) (gens : GMap) (g : Nat) (person : Person) :
    List String :=
  person.spouseIds.filter
    (fun sid =>
      match mapById people sid with
      | some _ => gens sid = some g
      | none => false)

/-- Couple/single units of an upper generation (lines 240–285): first the
multi-spouse pass, then single-spouse couples, then genuinely single people
(`isInPair` is the substring test over the recorded pair keys). -/
def unitsForGen (people : List Person) (gens : GMap) (g : Nat) :
    List (List Person) :=
  let genPeople := genGroup people gens g
  let step1 :=
    genPeople.foldl
      (fun (st : List String × List (List Person)) person =>
        let sig := spousesInGen people gens g person
        if sig.length > 1 then
          sig.foldl
            (fun st2 spouseId =>
              let key := jsKey [person.id, spouseId]
              if st2.1.contains key then st2
              else
                match mapById people spouseId with
                | some sp => (st2.1 ++ [key], st2.2 ++ [[person, sp]])
                | none => st2)
            st
        else st)
      ([], [])
  let step2 :=
    genPeople.foldl
      (fun (st : List String × List (List Person)) person =>
        match spousesInGen people gens g person with
        | [spouseId] =>
          let key := jsKey [person.id, spouseId]
          if st.1.contains key then st
          else
            match mapById people spouseId with
            | some sp => (st.1 ++ [key], st.2 ++ [[person, sp]])
            | none => st
        | [] =>
          if st.1.any (fun k => strIncludes k person.id) then st
          else (st.1, st.2 ++ [[person]])
        | _ => st)
      step1
  step2.2

/-- Insertion-ordered, deduplicated union of the children of the unit's
members (the `unitChildIds` Set, lines 290–294). -/
def unitChildIdsOf (people : List Person) (unit : List Person) : List String :=
  unit.foldl
    (fun acc par =>
      (buildChildrenMap people par.id).foldl
        (fun acc2 cid => if acc2.contains cid then acc2 else acc2 ++ [cid]) acc)
    []

/-- Position one unit of an upper generation (lines 288–347). -/
def placeUnit (people : List Person) (y : ℚ) (st : NP × PI) (unit : List Person) :
    NP × PI :=
  let np := st.1
  let pi := st.2
  let unitChildIds := unitChildIdsOf people unit
  let childPositions := unitChildIds.filterMap (fun cid => npLookup np cid)
  let centerX : ℚ :=
    if unitChildIds.length > 0 then
      if childPositions.length > 0 then
        (minQ (childPositions.map Position.x) + maxQ (childPositions.map Position.x)) / 2
      else CANVAS_PADDING + pi.length * CHILD_SPACING
    else
      let existingX := np.map (fun e => e.2.x)
      if existingX.length > 0 then maxQ existingX + CHILD_SPACING else CANVAS_PADDING
  match unit with
  | [p1, p2] =>
    let halfGap := COUPLE_GAP / 2
    let st1 : NP × PI :=
      if pi.contains p1.id then (np, pi)
      else (np ++ [(p1.id, ⟨centerX - halfGap, y⟩)], pi ++ [p1.id])
    if st1.2.contains p2.id then st1
    else (st1.1 ++ [(p2.id, ⟨centerX + halfGap, y⟩)], st1.2 ++ [p2.id])
  | p :: _ =>
    if pi.contains p.id then (np, pi)
    else (np ++ [(p.id, ⟨centerX, y⟩)], pi ++ [p.id])
  | [] => st

/-- Bottom-row single placement (lines 221–227): a yet unpositioned person is
placed at the running x, which then advances by `CHILD_SPACING`. -/
def placeBottomPerson (y : ℚ) (st : ℚ × NP × PI) (person : Person) : ℚ × NP × PI :=
  if st.2.2.contains person.id then st
  else
    (st.1 + CHILD_SPACING, st.2.1 ++ [(person.id, ⟨st.1, y⟩)], st.2.2 ++ [person.id])

/-- Bottom-row group traversal (lines 213–234): each group is sorted with the
sibling comparator and placed; `UNIT_SPACING` is added after every group but
the last. -/
def placeBottomGroupList (y : ℚ) : (ℚ × NP × PI) → List (List Person) → ℚ × NP × PI
  | st, [] => st
  | st, [g] => (jsSort siblingCmp g).foldl (placeBottomPerson y) st
  | st, g :: rest =>
    let st' := (jsSort siblingCmp g).foldl (placeBottomPerson y) st
    placeBottomGroupList y (st'.1 + UNIT_SPACING, st'.2) rest

/-- Bottom-row grouping (lines 192–211): keyed by the sorted parent pair, in
first-appearance order, with parentless people collected as a trailing
orphan group. -/
def addToGroups (groups : List (String × List Person)) (key : String) (p : Person) :
    List (String × List Person) :=
  match groups with
  | [] => [(key, [p])]
  | (k, ps) :: rest =>
    if k = key then (k, ps ++ [p]) :: rest else (k, ps) :: addToGroups rest key p

def bottomGroups (genPeople : List Person) : List (List Person) :=
  let grouped :=
    genPeople.foldl
      (fun (st : List (String × List Person) × List Person) person =>
        if person.parentIds.isEmpty then (st.1, st.2 ++ [person])
        else (addToGroups st.1 (jsKey person.parentIds) person, st.2))
      ([], [])
  grouped.1.map Prod.snd ++ (if grouped.2.isEmpty then [] else [grouped.2])

/-- One pass of the bottom-up generation loop (lines 183–349). -/
def processGen (people : List Person) (gens : GMap) (maxGen : Nat) (st : NP × PI)
    (g : Nat) : NP × PI :=
  let y : ℚ := CANVAS_PADDING + (g : ℚ) * VERTICAL_SPACING
  if g = maxGen then
    (placeBottomGroupList y (CANVAS_PADDING, st) (bottomGroups (genGroup people gens g))).2
  else
    (unitsForGen people gens g).foldl (placeUnit people y) st

/-- A laid-out node: the source spreads the person into the node and adds
`computedPosition` and `generation`; the embedding keeps the person nested. -/
structure LayoutNode where
  person : Person
  computedPosition : Position
  generation : Nat
deriving DecidableEq, Repr

structure LayoutResult where
  nodes : List LayoutNode
  width : ℚ
  height : ℚ
deriving DecidableEq, Repr

/-- The dead `familyUnits` construction of lines 115–170: built by
`computeLayout`, never read afterwards.  Embedded for fidelity and bound to a
throwaway variable there. -/
structure FamilyUnit where
  parents : List Person
  children : List String
  unitId : String
deriving DecidableEq, Repr

def familyUnitsOf (people : List Person) : List FamilyUnit :=
  (people.foldl
    (fun (st : List String × List FamilyUnit) person =>
      if st.1.contains person.id then st
      else
        let children := buildChildrenMap people person.id
        if children.isEmpty then st
        else
          let byPair :=
            children.foldl
              (fun (acc : List (String × List String)) childId =>
                match mapById people childId with
                | none => acc
                | some child =>
                  let pairKey :=
                    match child.parentIds.find? (fun pid => ¬ pid = person.id) with
                    | some other => jsKey [person.id, other]
                    | none => person.id
                  match acc with
                  | _ =>
                    if acc.any (fun e => e.1 = pairKey) then
                      acc.map (fun e => if e.1 = pairKey then (e.1, e.2 ++ [childId]) else e)
                    else acc ++ [(pairKey, [childId])])
              []
          byPair.foldl
            (fun st2 e =>
              let parents := (e.1.splitOn "-").filterMap (mapById people)
              (st2.1 ++ parents.map Person.id, st2.2 ++ [⟨parents, e.2, e.1⟩]))
            st)
    ([], [])).2

/-- `computeLayout` (lines 98–392). -/
def computeLayout (people : List Person) (autoAlign : Bool) : LayoutResult :=
  if people.isEmpty then ⟨[], 800, 600⟩
  else
    let gens := calculateGenerations people
    let maxGen := maxGeneration people gens
    let _fu := familyUnitsOf people
    let st :=
      ((List.range (maxGen + 1)).reverse).foldl (processGen people gens maxGen) ([], [])
    let nodes :=
      people.map
        (fun p =>
          let g := (gens p.id).getD 0
          let pos :=
            match npLookup st.1 p.id with
            | some pos => pos
            | none => ⟨CANVAS_PADDING, CANVAS_PADDING + (g : ℚ) * VERTICAL_SPACING⟩
          { person := p
            computedPosition :=
              match p.position with
              | some mp => if autoAlign then pos else mp
              | none => pos
            generation := g })
    let minX := minQ (nodes.map (fun n => n.computedPosition.x))
    let nodes2 :=
      if minX < CANVAS_PADDING then
        nodes.map
          (fun n =>
            { n with
              computedPosition :=
                ⟨n.computedPosition.x + (CANVAS_PADDING - minX), n.computedPosition.y⟩ })
      else nodes
    let width := maxQ (nodes2.map (fun n => n.computedPosition.x) ++ [800]) + CANVAS_PADDING
    let height := maxQ (nodes2.map (fun n => n.computedPosition.y) ++ [600]) + CANVAS_PADDING
    ⟨nodes2, width, height⟩

/-- The values held by the input persons' `position` fields after
`computeLayout` returns.  The node objects are built with a shallow spread,
so when a manual position exists and auto-align is off, `computedPosition`
IS the input's `position` object; the normalization pass then executes
`node.computedPosition.x += shiftX`, which writes through that alias into
the input.  Hence the post-call input position equals the node's final
computed position in exactly that case, and is untouched otherwise. -/
def inputPositionsAfter (people : List Person) (autoAlign : Bool) :
    List (Option Position) :=
  let result := computeLayout people autoAlign
  (people.zip result.nodes).map
    (fun pr =>
      match pr.1.position with
      | some mp => if autoAlign then some mp else some pr.2.computedPosition
      | none => none)

end TreeLayout

/-- Parent-chain reachability through the id map the cycle guard actually
consults (`Cycles.parentsOf`); coincides with `ReachesUp` when ids are
duplicate-free. -/
inductive ChainUp (people : List Person) (target : String) : String → Prop
  | base : ChainUp people target target
  | step {a : String} (b : String) (hb : b ∈ Cycles.parentsOf people a)
      (h : ChainUp people target b) : ChainUp people target a

/-- One hop of the relationship path: a present person with the first id
listing the second in any of its three relationship arrays. -/
def Adj (people : List Person) (x y : String) : Prop :=
  ∃ p, p ∈ people ∧ p.id = x ∧
    (y ∈ p.parentIds ∨ y ∈ p.childIds ∨ y ∈ p.spouseIds)

/-- "Zero parents present in the given set": every `parentIds` entry is
dangling. -/
def NoPresentParent (people : List Person) (p : Person) : Prop :=
  ∀ x ∈ p.parentIds, ¬ (people.map Person.id).contains x

namespace Demo

/-- Shorthand for a person without a manual position. -/
def mk (pid name gender : String) (ps ss cs : List String) : Person :=
  ⟨pid, name, gender, ps, ss, cs, none⟩

/-- C1 counterexample: `a` is a root, `b` is a's child, `c` is b's spouse
and a root. -/
def genPeople1 : List Person :=
  [mk "a" "Ada" "male" [] [] ["b"],
   mk "b" "Bea" "female" ["a"] ["c"] [],
   mk "c" "Cal" "male" [] ["b"] []]

/-- C5 counterexample: `a` carries a dangling parent reference, `b` is a's
child; there are no roots, so the BFS assigns nothing. -/
def genPeople2 : List Person :=
  [mk "a" "Ann" "female" ["ghost"] [] ["b"],
   mk "b" "Bob" "male" ["a"] [] []]

/-- C6 scenario: two mutually listed spouses, no parents, no children. -/
def spousePair : List Person :=
  [mk "p1" "Pat" "male" [] ["p2"] [],
   mk "p2" "Quinn" "female" [] ["p1"] []]

/-- C7 scenario: `x` married to `s1` (one child `c1`) and to `s2`
(childless). -/
def multiSpouse : List Person :=
  [mk "x" "Xen" "male" [] ["s1", "s2"] ["c1"],
   mk "s1" "Sam" "female" [] ["x"] ["c1"],
   mk "s2" "Sky" "female" [] ["x"] [],
   mk "c1" "Cam" "male" ["x", "s1"] [] []]

/-- C2 scenario: p1 parent of p2, p2 parent of p3, symmetric arrays. -/
def grandChain : List Person :=
  [mk "p1" "Gil" "male" [] [] ["p2"],
   mk "p2" "Hal" "male" ["p1"] [] ["p3"],
   mk "p3" "Ian" "male" ["p2"] [] []]

/-- C8 witness: a five-person ancestor chain, queried bottom-to-top, which
falls through every named rule to the generation-difference fallback. -/
def deepChain : List Person :=
  [mk "a" "Abe" "male" [] [] ["b"],
   mk "b" "Ben" "male" ["a"] [] ["c"],
   mk "c" "Cid" "male" ["b"] [] ["d"],
   mk "d" "Dan" "male" ["c"] [] ["e"],
   mk "e" "Eli" "male" ["d"] [] []]

/-- C9 witness: two fully unrelated persons. -/
def islands : List Person :=
  [mk "a" "Amy" "female" [] [] [],
   mk "z" "Zoe" "female" [] [] []]

/-- C4 failing input: one person with the manual position (0, 0); the
normalization shift then writes 100 into the aliased input position. -/
def pinned : List Person :=
  [⟨"solo", "Sol", "male", [], [], [], some ⟨0, 0⟩⟩]

/-- C3 / C10 witness: `b` is the parent of `a`. -/
def parentChild : List Person :=
  [mk "b" "Bill" "male" [] [] ["a"],
   mk "a" "Ava" "female" ["b"] [] []]

end Demo


/-- Invariant of the generation BFS: whenever an id holds generation `g`,
each of its children either already holds a strictly larger generation or is
still queued with `g + 1`. -/
def TreeLayout.GenInv (people : List Person) (gens : TreeLayout.GMap)
    (queue : List (String × Nat)) : Prop :=
  ∀ pid g, gens pid = some g → ∀ c ∈ TreeLayout.buildChildrenMap people pid,
    (∃ cg, gens c = some cg ∧ g < cg) ∨ (c, g + 1) ∈ queue

/-- Queue entries are either initial roots at 0 or ids of persons with at
least one present parent. -/
def TreeLayout.RootsCond (people : List Person) (queue : List (String × Nat)) : Prop :=
  ∀ e ∈ queue, e.2 = 0 ∨
    ∃ q ∈ people, q.id = e.1 ∧ ∃ x ∈ q.parentIds, (people.map Person.id).contains x

/-- Persons with no present parent only ever hold generation 0. -/
def TreeLayout.RootsVal (people : List Person) (gens : TreeLayout.GMap) : Prop :=
  ∀ p ∈ people, NoPresentParent people p → ∀ g, gens p.id = some g → g = 0

/-! ## Theorems -/

set_option maxHeartbeats 4000000

set_option maxRecDepth 16000

/-- C1, counterexample: in `Demo.genPeople1` persons `b` and `c` list each
other as spouses and are both present, yet `calculateGenerations` gives `b`
generation 1 and `c` generation 0 — the layout engine's generation
assignment has no spouse-equalization pass, so the claimed co-generation
fails. -/
theorem C1_spouse_cogeneration_cex :
    Demo.mk "b" "Bea" "female" ["a"] ["c"] [] ∈ Demo.genPeople1 ∧
    Demo.mk "c" "Cal" "male" [] ["b"] [] ∈ Demo.genPeople1 ∧
    ("c" : String) ∈ (Demo.mk "b" "Bea" "female" ["a"] ["c"] []).spouseIds ∧
    ("b" : String) ∈ (Demo.mk "c" "Cal" "male" [] ["b"] []).spouseIds ∧
    TreeLayout.calculateGenerations Demo.genPeople1 "b" = some 1 ∧
    TreeLayout.calculateGenerations Demo.genPeople1 "c" = some 0 := by
  refine ⟨by decide, by decide, by decide, by decide, by decide, by decide⟩

/-- C5, counterexample: in `Demo.genPeople2`, `b` has the present parent
`a`, but `a`'s own parent reference is dangling, so `findRoots` (which
tests `parentIds.length === 0`, not presence) finds no root, the BFS
assigns nothing, and both default to generation 0 — the strict inequality
`generation(b) > generation(a)` fails. -/
theorem C5_generation_monotonic_cex :
    Demo.mk "a" "Ann" "female" ["ghost"] [] ["b"] ∈ Demo.genPeople2 ∧
    Demo.mk "b" "Bob" "male" ["a"] [] [] ∈ Demo.genPeople2 ∧
    ("a" : String) ∈ (Demo.mk "b" "Bob" "male" ["a"] [] []).parentIds ∧
    TreeLayout.calculateGenerations Demo.genPeople2 "b" = some 0 ∧
    TreeLayout.calculateGenerations Demo.genPeople2 "a" = some 0 := by
  refine ⟨by decide, by decide, by decide, by decide, by decide⟩

/-- C6, counterexample: for the two parentless spouses of `Demo.spousePair`
the bottom-row branch of `computeLayout` places them `HORIZONTAL_SPACING`
(180) apart, not the claimed couple half-spacing `SPOUSE_SPACING / 2`
(50). -/
theorem C6_couple_spacing_cex :
    ((TreeLayout.computeLayout Demo.spousePair false).nodes.map
      (fun n => (n.person.id, n.computedPosition.x, n.computedPosition.y))) =
      [("p1", 100, 100), ("p2", 280, 100)] ∧
    ¬ ((280 : ℚ) - 100 = TreeLayout.SPOUSE_SPACING / 2) := by
  exact ⟨by with_unfolding_all decide, by with_unfolding_all decide⟩

/-- C6, amended: for two mutually listed spouses with no parents, no
children and no manual positions (`Demo.spousePair`), `computeLayout`
assigns both generation 0 and the same y coordinate `CANVAS_PADDING`, but
their x coordinates differ by `HORIZONTAL_SPACING` (= 180): with everybody
in the bottom generation the linear bottom-row branch runs, not the
couple-splitting branch, so the claimed half-spacing (50) never applies. -/
theorem C6_couple_spacing_amended :
    ((TreeLayout.computeLayout Demo.spousePair false).nodes.map
      (fun n => n.generation)) = [0, 0] ∧
    ((TreeLayout.computeLayout Demo.spousePair false).nodes.map
      (fun n => n.computedPosition.y)) =
      [TreeLayout.CANVAS_PADDING, TreeLayout.CANVAS_PADDING] ∧
    ((TreeLayout.computeLayout Demo.spousePair false).nodes.map
      (fun n => n.computedPosition.x)) =
      [TreeLayout.CANVAS_PADDING,
       TreeLayout.CANVAS_PADDING + TreeLayout.HORIZONTAL_SPACING] := by
  exact ⟨by with_unfolding_all decide, by with_unfolding_all decide,
    by with_unfolding_all decide⟩

/-- C7, counterexample: in `Demo.multiSpouse` the spouses `s1` and `s2` of
`x` are distinct persons of generation 0, yet both receive the coordinates
(200, 100): both marriages anchor to the same child span, so the layout
overlaps them exactly. -/
theorem C7_multi_spouse_cex :
    ((TreeLayout.computeLayout Demo.multiSpouse false).nodes.map
      (fun n => (n.person.id, n.computedPosition))) =
      [("x", ⟨100, 100⟩), ("s1", ⟨200, 100⟩), ("s2", ⟨200, 100⟩),
       ("c1", ⟨150, 280⟩)] ∧
    ("s1" : String) ≠ "s2" := by
  exact ⟨by with_unfolding_all decide, by decide⟩

/-- C7, amended: a person with several spouses in the same generation does
yield one couple unit per distinct marriage (here `[x, s1]` and `[x, s2]`),
but the spouses' computed positions are not guaranteed pairwise different:
when the units share the same children-derived anchor the spouses coincide,
as `s1` and `s2` do at (200, 100). -/
theorem C7_multi_spouse_amended :
    ((TreeLayout.unitsForGen Demo.multiSpouse
        (TreeLayout.calculateGenerations Demo.multiSpouse) 0).map
      (fun u => u.map Person.id)) = [["x", "s1"], ["x", "s2"]] ∧
    ((TreeLayout.computeLayout Demo.multiSpouse false).nodes.map
      (fun n => (n.person.id, n.computedPosition))) =
      [("x", ⟨100, 100⟩), ("s1", ⟨200, 100⟩), ("s2", ⟨200, 100⟩),
       ("c1", ⟨150, 280⟩)] := by
  exact ⟨by with_unfolding_all decide, by with_unfolding_all decide⟩

/-- C4: `computeLayout` does mutate its input.  The node objects are shallow
copies, so with auto-align off a manual `position` object is aliased by
`computedPosition`; the normalization pass then executes
`node.computedPosition.x += shiftX` through that alias.  For the single
person of `Demo.pinned`, manually positioned at (0, 0), the input's position
reads (100, 0) after the call — the claimed frame condition is violated by
the code while the specification (purity, "does not mutate input") states
the intent. -/
theorem C4_computeLayout_mutates_input :
    TreeLayout.inputPositionsAfter Demo.pinned false = [some ⟨100, 0⟩] ∧
    Demo.pinned.map Person.position = [some ⟨0, 0⟩] ∧
    TreeLayout.inputPositionsAfter Demo.pinned false ≠
      Demo.pinned.map Person.position := by
  exact ⟨by with_unfolding_all decide, by decide, by with_unfolding_all decide⟩

/-- C2, counterexample: for the chain of `Demo.grandChain` (p1 parent of p2,
p2 parent of p3, all male), `findRelationship(people, P1, P3)` labels the
relationship "Grandson" — person2's role in person1's terms, keyed by P3's
gender — not "Grandparent"/"Grandfather"/"Grandmother" as claimed (the
path, however, is [p1, p2, p3] as claimed). -/
theorem C2_grandparent_label_cex :
    Relationships.findRelationship Demo.grandChain
        (Demo.mk "p1" "Gil" "male" [] [] ["p2"])
        (Demo.mk "p3" "Ian" "male" ["p2"] [] []) =
      ⟨"Grandson", "பேரன்", ["p1", "p2", "p3"]⟩ ∧
    ¬ (("Grandson" : String) = "Grandparent" ∨ ("Grandson" : String) = "Grandfather"
        ∨ ("Grandson" : String) = "Grandmother") := by
  exact ⟨by decide, by decide⟩

/-- C2, amended: for a three-person chain P1 → P2 → P3 (symmetric
parent/child arrays, no other edges), `findRelationship(people, P1, P3)`
returns path [P1, P2, P3] and the grandchild-side label — "Grandson" /
"Granddaughter" / "Grandchild" according to P3's gender (the code labels
person2's role in person1's terms; the grandparent-side labels appear only
for the reversed query `findRelationship(people, P3, P1)`). -/
theorem C2_grandparent_label_amended (na nb nc g1 g2 g3 : String) :
    Relationships.findRelationship
        [⟨"p1", na, g1, [], [], ["p2"], none⟩,
         ⟨"p2", nb, g2, ["p1"], [], ["p3"], none⟩,
         ⟨"p3", nc, g3, ["p2"], [], [], none⟩]
        ⟨"p1", na, g1, [], [], ["p2"], none⟩
        ⟨"p3", nc, g3, ["p2"], [], [], none⟩ =
      Relationships.genderLabel g3
        ⟨"Grandson", "பேரன்", ["p1", "p2", "p3"]⟩
        ⟨"Granddaughter", "பேத்தி", ["p1", "p2", "p3"]⟩
        ⟨"Grandchild", "பேரக்குழந்தை", ["p1", "p2", "p3"]⟩ := by
  rfl

/-! ### Cycle-guard lemmas (C3) -/

theorem le_foldr_max {l : List Nat} {a : Nat} (h : a ∈ l) : a ≤ l.foldr Nat.max 0 := by
  induction l with
  | nil => simp at h
  | cons b t ih =>
    rcases List.mem_cons.1 h with rfl | ht
    · exact Nat.le_max_left _ _
    · exact Nat.le_trans (ih ht) (Nat.le_max_right _ _)

theorem Cycles.parentsOf_subset_universe {people : List Person} {seed c x : String}
    (hx : x ∈ Cycles.parentsOf people c) : x ∈ Cycles.idUniverse people seed := by
  unfold Cycles.parentsOf at hx
  cases h : mapById people c with
  | none => rw [h] at hx; simp at hx
  | some p =>
    rw [h] at hx
    have hp : p ∈ people := List.mem_reverse.1 (List.mem_of_find?_eq_some h)
    unfold Cycles.idUniverse
    rw [List.mem_toFinset, List.mem_cons]
    exact Or.inr (List.mem_flatMap.2 ⟨p, hp, hx⟩)

theorem Cycles.parentsOf_length_le (people : List Person) (c : String) :
    (Cycles.parentsOf people c).length ≤ Cycles.maxParents people := by
  unfold Cycles.parentsOf
  cases h : mapById people c with
  | none => simp
  | some p =>
    have hp : p ∈ people := List.mem_reverse.1 (List.mem_of_find?_eq_some h)
    exact le_foldr_max (List.mem_map.2 ⟨p, hp, rfl⟩)

theorem chainUp_not_closed {people : List Person} {childId : String}
    {visited : Finset String} (hne : childId ∉ visited)
    (hclo : ∀ v ∈ visited, ∀ p ∈ Cycles.parentsOf people v, p ∈ visited) :
    ∀ u ∈ visited, ChainUp people childId u → False := by
  intro u hu hchain
  induction hchain with
  | base => exact hne hu
  | step b hb _ ih => exact ih (hclo _ hu _ hb)

theorem ancestorLoop_finds (people : List Person) (childId seed : String) :
    ∀ (fuel : Nat) (visited : Finset String) (queue : List String),
      (∀ x ∈ queue, x ∈ Cycles.idUniverse people seed) →
      childId ∉ visited →
      (∀ v ∈ visited, ∀ p ∈ Cycles.parentsOf people v, p ∈ visited ∨ p ∈ queue) →
      (∃ u, (u ∈ queue ∨ u ∈ visited) ∧ ChainUp people childId u) →
      ((Cycles.idUniverse people seed \ visited).card * (Cycles.maxParents people + 1)
          + queue.length) + 1 ≤ fuel →
      Cycles.ancestorLoop people childId fuel visited queue = true := by
  intro fuel
  induction fuel with
  | zero => intro visited queue _ _ _ _ hfuel; omega
  | succ f ih =>
    intro visited queue hsub hne hclo hreach hfuel
    match queue with
    | [] =>
      obtain ⟨u, hu, hchain⟩ := hreach
      have hu' : u ∈ visited := by
        rcases hu with h | h
        · simp at h
        · exact h
      have hclo' : ∀ v ∈ visited, ∀ p ∈ Cycles.parentsOf people v, p ∈ visited := by
        intro v hv p hp
        rcases hclo v hv p hp with h | h
        · exact h
        · simp at h
      exact absurd hchain (fun hc => chainUp_not_closed hne hclo' u hu' hc)
    | c :: rest =>
      by_cases hc : c ∈ visited
      · rw [Cycles.ancestorLoop]
        simp only [hc, if_pos]
        apply ih visited rest
        · exact fun x hx => hsub x (List.mem_cons_of_mem _ hx)
        · exact hne
        · intro v hv p hp
          rcases hclo v hv p hp with h | h
          · exact Or.inl h
          · rcases List.mem_cons.1 h with rfl | h2
            · exact Or.inl hc
            · exact Or.inr h2
        · obtain ⟨u, hu, hchain⟩ := hreach
          refine ⟨u, ?_, hchain⟩
          rcases hu with h | h
          · rcases List.mem_cons.1 h with rfl | h2
            · exact Or.inr hc
            · exact Or.inl h2
          · exact Or.inr h
        · simp only [List.length_cons] at hfuel
          omega
      · by_cases hcc : c = childId
        · rw [Cycles.ancestorLoop]
          rw [if_neg hc, if_pos hcc]
        · rw [Cycles.ancestorLoop]
          simp only [hc, if_neg, hcc, if_false]
          apply ih (insert c visited) (rest ++ Cycles.parentsOf people c)
          · intro x hx
            rcases List.mem_append.1 hx with h | h
            · exact hsub x (List.mem_cons_of_mem _ h)
            · exact Cycles.parentsOf_subset_universe h
          · simp only [Finset.mem_insert]
            rintro (h | h)
            · exact hcc h.symm
            · exact hne h
          · intro v hv p hp
            rcases Finset.mem_insert.1 hv with rfl | hv2
            · exact Or.inr (List.mem_append.2 (Or.inr hp))
            · rcases hclo v hv2 p hp with h | h
              · exact Or.inl (Finset.mem_insert_of_mem h)
              · rcases List.mem_cons.1 h with rfl | h2
                · exact Or.inl (Finset.mem_insert_self _ _)
                · exact Or.inr (List.mem_append.2 (Or.inl h2))
          · obtain ⟨u, hu, hchain⟩ := hreach
            refine ⟨u, ?_, hchain⟩
            rcases hu with h | h
            · rcases List.mem_cons.1 h with rfl | h2
              · exact Or.inr (Finset.mem_insert_self _ _)
              · exact Or.inl (List.mem_append.2 (Or.inl h2))
            · exact Or.inr (Finset.mem_insert_of_mem h)
          · have hcU : c ∈ Cycles.idUniverse people seed \ visited :=
              Finset.mem_sdiff.2 ⟨hsub c (List.mem_cons_self _ _), hc⟩
            have hcard : (Cycles.idUniverse people seed \ insert c visited).card + 1 =
                (Cycles.idUniverse people seed \ visited).card := by
              rw [Finset.sdiff_insert]
              rw [Finset.card_erase_of_mem hcU]
              have : 1 ≤ (Cycles.idUniverse people seed \ visited).card :=
                Finset.card_pos.2 ⟨c, hcU⟩
              omega
            have hplen : (Cycles.parentsOf people c).length ≤ Cycles.maxParents people :=
              Cycles.parentsOf_length_le people c
            simp only [List.length_append, List.length_cons] at hfuel ⊢
            set C2 := (Cycles.idUniverse people seed \ insert c visited).card with hC2
            set M := Cycles.maxParents people with hM
            have hexp : (C2 + 1) * (M + 1) = C2 * (M + 1) + M + 1 := by ring
            rw [← hcard] at hfuel
            rw [hexp] at hfuel
            omega

theorem find?_eq_some_of_nodup :
    ∀ (l : List Person) (p : Person), (l.map Person.id).Nodup → p ∈ l →
      l.find? (fun q => q.id = p.id) = some p := by
  intro l
  induction l with
  | nil => intro p _ hp; simp at hp
  | cons a t ih =>
    intro p hnd hp
    rcases List.mem_cons.1 hp with rfl | hpt
    · simp [List.find?]
    · have hna : ¬ (a.id = p.id) := by
        intro h
        have : p.id ∈ t.map Person.id := List.mem_map.2 ⟨p, hpt, rfl⟩
        rw [List.map_cons, List.nodup_cons] at hnd
        exact hnd.1 (h ▸ this)
      rw [List.find?]
      simp only [hna, decide_False]
      exact ih p (by rw [List.map_cons, List.nodup_cons] at hnd; exact hnd.2) hpt

theorem mapById_eq_some_of_nodup {people : List Person} {p : Person}
    (hnd : (people.map Person.id).Nodup) (hp : p ∈ people) :
    mapById people p.id = some p := by
  unfold mapById
  apply find?_eq_some_of_nodup
  · rw [List.map_reverse]
    exact List.nodup_reverse.2 hnd
  · exact List.mem_reverse.2 hp

theorem reachesUp_chainUp {people : List Person} {a b : String}
    (hnd : (people.map Person.id).Nodup) (h : ReachesUp people a b) :
    ChainUp people b a := by
  induction h with
  | refl => exact ChainUp.base
  | step b' p hp hid hb _ ih =>
    refine ChainUp.step b' ?_ ih
    unfold Cycles.parentsOf
    rw [← hid, mapById_eq_some_of_nodup hnd hp]
    exact hb

/-- C3: the cycle guard is sound.  (1) Whenever `pa` is a descendant of `pb` —
there is a chain of `parentIds` hops through present persons from `pa` up to
`pb` — `wouldCreateCycle(people, pb.id, pa.id)` returns true: although the
descendant-direction BFS of the source is inert (its `return true` only
leaves the `forEach` callback), the ancestor-direction walk reaches `pb.id`
from `pa.id` and reports the cycle.  (2) For any id `a`,
`wouldCreateCycle(people, a, a)` returns true via the self-parent check. -/
theorem C3_cycle_guard_sound :
    (∀ (people : List Person) (pa pb : Person),
      (people.map Person.id).Nodup → pa ∈ people → pb ∈ people →
      ReachesUp people pa.id pb.id →
      Cycles.wouldCreateCycle people pb.id pa.id = true) ∧
    (∀ (people : List Person) (a : String),
      Cycles.wouldCreateCycle people a a = true) := by
  constructor
  · intro people pa pb hnd hpa hpb hreach
    by_cases heq : pb.id = pa.id
    · unfold Cycles.wouldCreateCycle
      rw [if_pos heq]
    · unfold Cycles.wouldCreateCycle
      rw [if_neg heq]
      apply ancestorLoop_finds people pb.id pa.id
      · intro x hx
        rcases List.mem_cons.1 hx with rfl | h
        · unfold Cycles.idUniverse
          rw [List.mem_toFinset]
          exact List.mem_cons_self _ _
        · simp at h
      · simp
      · intro v hv; simp at hv
      · exact ⟨pa.id, Or.inl (List.mem_cons_self _ _), reachesUp_chainUp hnd hreach⟩
      · have h1 : 1 ≤ (Cycles.idUniverse people pa.id).card := by
          apply Finset.card_pos.2
          refine ⟨pa.id, ?_⟩
          unfold Cycles.idUniverse
          rw [List.mem_toFinset]
          exact List.mem_cons_self _ _
        unfold Cycles.cycleFuel
        rw [Finset.sdiff_empty]
        set C := (Cycles.idUniverse people pa.id).card with hC
        set M := Cycles.maxParents people with hM
        have hexp : (C + 1) * (M + 2) = C * (M + 1) + C + M + 2 := by ring
        rw [hexp]
        simp only [List.length_cons, List.length_nil]
        omega
  · intro people a
    unfold Cycles.wouldCreateCycle
    rw [if_pos rfl]

/-- C3, witness: in `Demo.parentChild` the person `a` (child of `b`) is a
descendant of `b`, and the guard refuses both `a` as a parent of `b` and any
id as its own parent. -/
theorem C3_cycle_guard_sound_witness :
    Cycles.wouldCreateCycle Demo.parentChild "b" "a" = true ∧
    Cycles.wouldCreateCycle Demo.parentChild "q" "q" = true := by
  constructor
  · exact C3_cycle_guard_sound.1 Demo.parentChild
      (Demo.mk "a" "Ava" "female" ["b"] [] [])
      (Demo.mk "b" "Bill" "male" [] [] ["a"])
      (by decide) (by decide) (by decide)
      (ReachesUp.step "b" (Demo.mk "a" "Ava" "female" ["b"] [] [])
        (by decide) rfl (by decide) (ReachesUp.refl "b"))
  · exact C3_cycle_guard_sound.2 Demo.parentChild "q"

/-! ### Generation-assignment lemmas (C1, C5) -/

theorem contains_iff_mem {l : List String} {a : String} :
    l.contains a = true ↔ a ∈ l := by
  constructor <;> intro h <;> simpa using h

theorem bcm_fold_mem (pid : String) :
    ∀ (l : List Person) (acc : List String) (x : String),
      x ∈ l.foldl
        (fun acc q =>
          if pid ∈ q.parentIds ∧ ¬ acc.contains q.id then acc ++ [q.id] else acc) acc ↔
      x ∈ acc ∨ ∃ q ∈ l, q.id = x ∧ pid ∈ q.parentIds := by
  intro l
  induction l with
  | nil => intro acc x; simp
  | cons a t ih =>
    intro acc x
    rw [List.foldl_cons, ih]
    have hstep :
        (x ∈ (if pid ∈ a.parentIds ∧ ¬ List.contains acc a.id then acc ++ [a.id] else acc)) ↔
        (x ∈ acc ∨ (a.id = x ∧ pid ∈ a.parentIds)) := by
      by_cases hpa : pid ∈ a.parentIds
      · by_cases hct : List.contains acc a.id
        · rw [if_neg (by intro hand; exact hand.2 hct)]
          constructor
          · exact fun h => Or.inl h
          · rintro (h | ⟨rfl, _⟩)
            · exact h
            · exact contains_iff_mem.1 hct
        · rw [if_pos ⟨hpa, hct⟩]
          rw [List.mem_append, List.mem_singleton]
          constructor
          · rintro (h | rfl)
            · exact Or.inl h
            · exact Or.inr ⟨rfl, hpa⟩
          · rintro (h | ⟨rfl, _⟩)
            · exact Or.inl h
            · exact Or.inr rfl
      · rw [if_neg (by intro hand; exact hpa hand.1)]
        constructor
        · exact fun h => Or.inl h
        · rintro (h | ⟨_, hp⟩)
          · exact h
          · exact absurd hp hpa
    rw [hstep]
    constructor
    · rintro ((h | h) | h)
      · exact Or.inl h
      · exact Or.inr ⟨a, List.mem_cons_self _ _, h.1, h.2⟩
      · obtain ⟨q, hq, h1, h2⟩ := h
        exact Or.inr ⟨q, List.mem_cons_of_mem _ hq, h1, h2⟩
    · rintro (h | ⟨q, hq, h1, h2⟩)
      · exact Or.inl (Or.inl h)
      · rcases List.mem_cons.1 hq with rfl | hqt
        · exact Or.inl (Or.inr ⟨h1, h2⟩)
        · exact Or.inr ⟨q, hqt, h1, h2⟩

theorem mem_buildChildrenMap {people : List Person} {pid x : String} :
    x ∈ TreeLayout.buildChildrenMap people pid ↔
      ((people.map Person.id).contains pid ∧
        ∃ q ∈ people, q.id = x ∧ pid ∈ q.parentIds) := by
  unfold TreeLayout.buildChildrenMap
  by_cases hc : (people.map Person.id).contains pid
  · rw [if_pos hc, bcm_fold_mem]
    constructor
    · rintro (h | h)
      · simp at h
      · exact ⟨hc, h⟩
    · exact fun h => Or.inr h.2
  · rw [if_neg hc]
    constructor
    · intro h; simp at h
    · intro h; exact absurd h.1 hc

theorem updGen_self (gens : TreeLayout.GMap) (pid : String) (g : Nat) :
    ∃ v, TreeLayout.updGen gens pid g pid = some v ∧ g ≤ v := by
  unfold TreeLayout.updGen
  rw [if_pos rfl]
  cases h : gens pid with
  | none => exact ⟨g, rfl, Nat.le_refl g⟩
  | some old => exact ⟨Nat.max old g, rfl, Nat.le_max_right _ _⟩

theorem updGen_mono {gens : TreeLayout.GMap} {x : String} {gx : Nat}
    (pid : String) (g : Nat) (h : gens x = some gx) :
    ∃ gx2, gx ≤ gx2 ∧ TreeLayout.updGen gens pid g x = some gx2 := by
  unfold TreeLayout.updGen
  by_cases hx : x = pid
  · subst hx
    rw [if_pos rfl, h]
    exact ⟨Nat.max gx g, Nat.le_max_left _ _, rfl⟩
  · rw [if_neg hx]
    exact ⟨gx, Nat.le_refl _, h⟩

theorem updGen_of_ne {gens : TreeLayout.GMap} {x pid : String} (h : x ≠ pid)
    (g : Nat) : TreeLayout.updGen gens pid g x = gens x := by
  unfold TreeLayout.updGen
  rw [if_neg h]

theorem calcGenLoop_mono (people : List Person) :
    ∀ (fuel : Nat) (gens : TreeLayout.GMap) (queue : List (String × Nat))
      (x : String) (gx : Nat), gens x = some gx →
      ∃ gx2, gx ≤ gx2 ∧ (TreeLayout.calcGenLoop people fuel gens queue).1 x = some gx2 := by
  intro fuel
  induction fuel with
  | zero =>
    intro gens queue x gx h
    match queue with
    | [] => exact ⟨gx, Nat.le_refl _, h⟩
    | e :: rest => exact ⟨gx, Nat.le_refl _, h⟩
  | succ f ih =>
    intro gens queue x gx h
    match queue with
    | [] => exact ⟨gx, Nat.le_refl _, h⟩
    | (pid, g) :: rest =>
      rw [TreeLayout.calcGenLoop]
      obtain ⟨gx1, hle1, h1⟩ := updGen_mono pid g h
      obtain ⟨gx2, hle2, h2⟩ := ih _ _ x gx1 h1
      exact ⟨gx2, Nat.le_trans hle1 hle2, h2⟩

theorem calcGenLoop_pops (people : List Person) :
    ∀ (fuel : Nat) (gens : TreeLayout.GMap) (queue : List (String × Nat)),
      (TreeLayout.calcGenLoop people fuel gens queue).2 = true →
      ∀ e ∈ queue, ∃ g2, e.2 ≤ g2 ∧
        (TreeLayout.calcGenLoop people fuel gens queue).1 e.1 = some g2 := by
  intro fuel
  induction fuel with
  | zero =>
    intro gens queue hdone e he
    match queue with
    | [] => simp at he
    | e2 :: rest => simp [TreeLayout.calcGenLoop] at hdone
  | succ f ih =>
    intro gens queue hdone e he
    match queue with
    | [] => simp at he
    | (pid, g) :: rest =>
      rw [TreeLayout.calcGenLoop] at hdone ⊢
      rcases List.mem_cons.1 he with rfl | hrest
      · obtain ⟨v, hv, hgv⟩ := updGen_self gens pid g
        obtain ⟨g2, hle, h2⟩ := calcGenLoop_mono people f _ _ pid v hv
        exact ⟨g2, Nat.le_trans hgv hle, h2⟩
      · exact ih _ _ hdone e (List.mem_append.2 (Or.inl hrest))

theorem genInv_step (people : List Person) (gens : TreeLayout.GMap)
    (pid : String) (g : Nat) (rest : List (String × Nat))
    (hInv : TreeLayout.GenInv people gens ((pid, g) :: rest)) :
    TreeLayout.GenInv people (TreeLayout.updGen gens pid g)
      (rest ++ ((TreeLayout.buildChildrenMap people pid).filter
        (fun c => match TreeLayout.updGen gens pid g c with
          | none => true
          | some cg => cg < g + 1)).map (fun c => (c, g + 1))) := by
  intro id2 g2 hg2 c hc
  have hpush : ∀ cF ∈ TreeLayout.buildChildrenMap people pid,
      (match TreeLayout.updGen gens pid g cF with
        | none => true
        | some cg => decide (cg < g + 1)) = true →
      (cF, g + 1) ∈ rest ++ ((TreeLayout.buildChildrenMap people pid).filter
        (fun c => match TreeLayout.updGen gens pid g c with
          | none => true
          | some cg => cg < g + 1)).map (fun c => (c, g + 1)) := by
    intro cF hcF hcond
    exact List.mem_append.2 (Or.inr (List.mem_map.2
      ⟨cF, List.mem_filter.2 ⟨hcF, hcond⟩, rfl⟩))
  by_cases hid : id2 = pid
  · subst hid
    cases hold : gens id2 with
    | none =>
      have hval : TreeLayout.updGen gens id2 g id2 = some g := by
        unfold TreeLayout.updGen
        rw [if_pos rfl, hold]
      have hg2g : g2 = g := by
        rw [hval] at hg2
        exact (Option.some.inj hg2).symm
      rw [hg2g]
      cases hcg : TreeLayout.updGen gens id2 g c with
      | none => exact Or.inr (hpush c hc (by rw [hcg]))
      | some cg =>
        by_cases hlt : cg < g + 1
        · exact Or.inr (hpush c hc (by rw [hcg]; simpa using hlt))
        · exact Or.inl ⟨cg, rfl, by omega⟩
    | some old =>
      have hval : TreeLayout.updGen gens id2 g id2 = some (Nat.max old g) := by
        unfold TreeLayout.updGen
        rw [if_pos rfl, hold]
      by_cases hog : old < g
      · have hmax : Nat.max old g = g := Nat.max_eq_right (Nat.le_of_lt hog)
        rw [hmax] at hval
        have hg2g : g2 = g := by
          rw [hval] at hg2
          exact (Option.some.inj hg2).symm
        rw [hg2g]
        cases hcg : TreeLayout.updGen gens id2 g c with
        | none => exact Or.inr (hpush c hc (by rw [hcg]))
        | some cg =>
          by_cases hlt : cg < g + 1
          · exact Or.inr (hpush c hc (by rw [hcg]; simpa using hlt))
          · exact Or.inl ⟨cg, rfl, by omega⟩
      · have hmax : Nat.max old g = old := Nat.max_eq_left (Nat.le_of_not_lt hog)
        rw [hmax] at hval
        have hg2o : g2 = old := by
          rw [hval] at hg2
          exact (Option.some.inj hg2).symm
        rw [hg2o]
        rcases hInv id2 old hold c hc with ⟨cg, hcg, hlt⟩ | hqm
        · obtain ⟨cg2, hle, hcg2⟩ := updGen_mono id2 g hcg
          exact Or.inl ⟨cg2, hcg2, Nat.lt_of_lt_of_le hlt hle⟩
        · rcases List.mem_cons.1 hqm with heq | hqr
          · have h1 : c = id2 ∧ old + 1 = g := by
              have := Prod.mk.injEq c (old + 1) id2 g ▸ heq
              exact ⟨this.1, this.2⟩
            omega
          · exact Or.inr (List.mem_append.2 (Or.inl hqr))
  · have hg2' : gens id2 = some g2 := by
      rw [updGen_of_ne hid g] at hg2
      exact hg2
    rcases hInv id2 g2 hg2' c hc with ⟨cg, hcg, hlt⟩ | hqm
    · obtain ⟨cg2, hle, hcg2⟩ := updGen_mono pid g hcg
      exact Or.inl ⟨cg2, hcg2, Nat.lt_of_lt_of_le hlt hle⟩
    · rcases List.mem_cons.1 hqm with heq | hqr
      · have h1 : c = pid ∧ g2 + 1 = g := by
          have := Prod.mk.injEq c (g2 + 1) pid g ▸ heq
          exact ⟨this.1, this.2⟩
        obtain ⟨v, hv, hgv⟩ := updGen_self gens pid g
        refine Or.inl ⟨v, ?_, ?_⟩
        · rw [h1.1]; exact hv
        · omega
      · exact Or.inr (List.mem_append.2 (Or.inl hqr))

theorem genInv_run (people : List Person) :
    ∀ (fuel : Nat) (gens : TreeLayout.GMap) (queue : List (String × Nat)),
      TreeLayout.GenInv people gens queue →
      (TreeLayout.calcGenLoop people fuel gens queue).2 = true →
      ∀ pid g, (TreeLayout.calcGenLoop people fuel gens queue).1 pid = some g →
        ∀ c ∈ TreeLayout.buildChildrenMap people pid,
          ∃ cg, (TreeLayout.calcGenLoop people fuel gens queue).1 c = some cg ∧ g < cg := by
  intro fuel
  induction fuel with
  | zero =>
    intro gens queue hInv hdone pid g hg c hc
    match queue with
    | [] =>
      rcases hInv pid g hg c hc with ⟨cg, hcg, hlt⟩ | hqm
      · exact ⟨cg, hcg, hlt⟩
      · simp at hqm
    | e :: rest => simp [TreeLayout.calcGenLoop] at hdone
  | succ f ih =>
    intro gens queue hInv hdone pid g hg c hc
    match queue with
    | [] =>
      rcases hInv pid g hg c hc with ⟨cg, hcg, hlt⟩ | hqm
      · exact ⟨cg, hcg, hlt⟩
      · simp at hqm
    | (pid2, g2) :: rest =>
      rw [TreeLayout.calcGenLoop] at hdone hg ⊢
      exact ih _ _ (genInv_step people gens pid2 g2 rest hInv) hdone pid g hg c hc

theorem person_eq_of_id_eq {people : List Person} {p q : Person}
    (hnd : (people.map Person.id).Nodup) (hp : p ∈ people) (hq : q ∈ people)
    (h : p.id = q.id) : p = q :=
  List.inj_on_of_nodup_map hnd hp hq h

theorem roots_step (people : List Person) (hnd : (people.map Person.id).Nodup)
    (gens : TreeLayout.GMap) (pid : String) (g : Nat) (rest : List (String × Nat))
    (hqc : TreeLayout.RootsCond people ((pid, g) :: rest))
    (hval : TreeLayout.RootsVal people gens) :
    TreeLayout.RootsVal people (TreeLayout.updGen gens pid g) ∧
    TreeLayout.RootsCond people
      (rest ++ ((TreeLayout.buildChildrenMap people pid).filter
        (fun c => match TreeLayout.updGen gens pid g c with
          | none => true
          | some cg => cg < g + 1)).map (fun c => (c, g + 1))) := by
  constructor
  · intro p hp hnp g0 hg0
    by_cases hpid : p.id = pid
    · have hzero : g = 0 := by
        rcases hqc (pid, g) (List.mem_cons_self _ _) with hg | ⟨q, hq, hqid, x, hx, hxc⟩
        · exact hg
        · have hqp : q = p := person_eq_of_id_eq hnd hq hp (by rw [hqid, hpid])
          subst hqp
          exact absurd hxc (hnp x hx)
      subst hzero
      rw [hpid] at hg0
      unfold TreeLayout.updGen at hg0
      rw [if_pos rfl] at hg0
      cases hold : gens pid with
      | none =>
        rw [hold] at hg0
        exact (Option.some.inj hg0).symm
      | some old =>
        have holdz : old = 0 := hval p hp hnp old (by rw [hpid]; exact hold)
        rw [hold, holdz] at hg0
        exact (Option.some.inj hg0).symm
    · rw [updGen_of_ne hpid] at hg0
      exact hval p hp hnp g0 hg0
  · intro e he
    rcases List.mem_append.1 he with hrest | hpush
    · exact hqc e (List.mem_cons_of_mem _ hrest)
    · obtain ⟨c, hcf, rfl⟩ := List.mem_map.1 hpush
      have hcb := (List.mem_filter.1 hcf).1
      obtain ⟨hcontains, q, hq, hqid, hqp⟩ := mem_buildChildrenMap.1 hcb
      exact Or.inr ⟨q, hq, hqid, pid, hqp, hcontains⟩

theorem roots_run (people : List Person) (hnd : (people.map Person.id).Nodup) :
    ∀ (fuel : Nat) (gens : TreeLayout.GMap) (queue : List (String × Nat)),
      TreeLayout.RootsCond people queue →
      TreeLayout.RootsVal people gens →
      TreeLayout.RootsVal people (TreeLayout.calcGenLoop people fuel gens queue).1 := by
  intro fuel
  induction fuel with
  | zero =>
    intro gens queue hqc hval
    match queue with
    | [] => exact hval
    | e :: rest => exact hval
  | succ f ih =>
    intro gens queue hqc hval
    match queue with
    | [] => exact hval
    | (pid, g) :: rest =>
      rw [TreeLayout.calcGenLoop]
      obtain ⟨hval2, hqc2⟩ := roots_step people hnd gens pid g rest hqc hval
      exact ih _ _ hqc2 hval2

theorem contains_of_mem {people : List Person} {p : Person} (hp : p ∈ people) :
    (people.map Person.id).contains p.id = true :=
  contains_iff_mem.2 (List.mem_map.2 ⟨p, hp, rfl⟩)

theorem noPresentParent_gen_zero {people : List Person} {p : Person}
    (hnd : (people.map Person.id).Nodup) (hp : p ∈ people)
    (hnp : NoPresentParent people p) :
    TreeLayout.calculateGenerations people p.id = some 0 := by
  have hroots : TreeLayout.RootsVal people (TreeLayout.bfsAssign people) := by
    unfold TreeLayout.bfsAssign
    apply roots_run people hnd
    · intro e he
      obtain ⟨r, _, rfl⟩ := List.mem_map.1 he
      exact Or.inl rfl
    · intro q _ _ g0 hg0
      exact absurd hg0 (by simp)
  unfold TreeLayout.calculateGenerations
  cases h : TreeLayout.bfsAssign people p.id with
  | none =>
    rw [contains_of_mem hp]
    rfl
  | some g =>
    rw [hroots p hp hnp g h]

/-- C1, amended: the generation assignment of the layout engine has no
spouse rule, so co-generation only holds for spouse pairs whose generations
already agree; in particular two mutually listed spouses neither of whom has
any parent entry are both assigned generation 0 (ids assumed distinct
per person). -/
theorem C1_spouse_cogeneration_amended (people : List Person) (p q : Person)
    (hnd : (people.map Person.id).Nodup) (hp : p ∈ people) (hq : q ∈ people)
    (hsp : q.id ∈ p.spouseIds) (hsq : p.id ∈ q.spouseIds)
    (hpp : p.parentIds = []) (hqp : q.parentIds = []) :
    TreeLayout.calculateGenerations people p.id = some 0 ∧
    TreeLayout.calculateGenerations people q.id = some 0 ∧
    TreeLayout.calculateGenerations people p.id =
      TreeLayout.calculateGenerations people q.id := by
  have h1 : TreeLayout.calculateGenerations people p.id = some 0 :=
    noPresentParent_gen_zero hnd hp (by rw [NoPresentParent, hpp]; simp)
  have h2 : TreeLayout.calculateGenerations people q.id = some 0 :=
    noPresentParent_gen_zero hnd hq (by rw [NoPresentParent, hqp]; simp)
  exact ⟨h1, h2, by rw [h1, h2]⟩

/-- C1, witness: the two parentless spouses of `Demo.spousePair` are both
assigned generation 0. -/
theorem C1_spouse_cogeneration_amended_witness :
    TreeLayout.calculateGenerations Demo.spousePair "p1" = some 0 ∧
    TreeLayout.calculateGenerations Demo.spousePair "p2" = some 0 := by
  have h := C1_spouse_cogeneration_amended Demo.spousePair
    (Demo.mk "p1" "Pat" "male" [] ["p2"] [])
    (Demo.mk "p2" "Quinn" "female" [] ["p1"] [])
    (by decide) (by decide) (by decide) (by decide) (by decide) rfl rfl
  exact ⟨h.1, h.2.1⟩

/-- C5, amended: strict generation monotonicity holds for parents the BFS
actually reaches — if `q` is present, is a parent of present `c`, and the
BFS (run to completion) assigned `q` generation `gq`, then `c` is assigned
a strictly larger generation; separately, every person with zero parents
present in the set ends with generation 0.  The original unconditional
claim fails when no root exists (see the counterexample): then the
disconnected-node default gives every person generation 0. -/
theorem C5_generation_monotonic_amended (people : List Person)
    (hnd : (people.map Person.id).Nodup)
    (hcomp : TreeLayout.calcGenCompleted people = true) :
    (∀ c q : Person, c ∈ people → q ∈ people → q.id ∈ c.parentIds →
      ∀ gq, TreeLayout.bfsAssign people q.id = some gq →
      ∃ gc, TreeLayout.bfsAssign people c.id = some gc ∧ gq < gc ∧
        TreeLayout.calculateGenerations people c.id = some gc ∧
        TreeLayout.calculateGenerations people q.id = some gq) ∧
    (∀ p ∈ people, NoPresentParent people p →
      TreeLayout.calculateGenerations people p.id = some 0) := by
  constructor
  · intro c q hc hq hqc gq hgq
    have hcb : c.id ∈ TreeLayout.buildChildrenMap people q.id :=
      mem_buildChildrenMap.2 ⟨contains_of_mem hq, c, hc, rfl, hqc⟩
    have hcomp2 : (TreeLayout.calcGenLoop people (TreeLayout.genFuel people)
        (fun _ => none) ((TreeLayout.findRoots people).map (fun r => (r.id, 0)))).2 =
        true := hcomp
    have hgq2 : (TreeLayout.calcGenLoop people (TreeLayout.genFuel people)
        (fun _ => none) ((TreeLayout.findRoots people).map (fun r => (r.id, 0)))).1
        q.id = some gq := hgq
    have hrun := genInv_run people (TreeLayout.genFuel people) (fun _ => none)
      ((TreeLayout.findRoots people).map (fun r => (r.id, 0)))
      (by intro pid g h _ _; exact absurd h (by simp))
      hcomp2 q.id gq hgq2 c.id hcb
    obtain ⟨gc, hgc, hlt⟩ := hrun
    have hgc2 : TreeLayout.bfsAssign people c.id = some gc := hgc
    refine ⟨gc, hgc2, hlt, ?_, ?_⟩
    · unfold TreeLayout.calculateGenerations
      rw [hgc2]
    · unfold TreeLayout.calculateGenerations
      rw [hgq]
  · intro p hp hnp
    exact noPresentParent_gen_zero hnd hp hnp

/-- C5, witness: in `Demo.parentChild`, `b` is a root assigned generation 0
and its child `a` is assigned a strictly larger generation. -/
theorem C5_generation_monotonic_amended_witness :
    (∃ gc, TreeLayout.bfsAssign Demo.parentChild "a" = some gc ∧ 0 < gc) ∧
    TreeLayout.calculateGenerations Demo.parentChild "b" = some 0 := by
  have h := C5_generation_monotonic_amended Demo.parentChild (by decide) (by decide)
  constructor
  · obtain ⟨gc, h1, h2, _, _⟩ := h.1
      (Demo.mk "a" "Ava" "female" ["b"] [] [])
      (Demo.mk "b" "Bill" "male" [] [] ["a"])
      (by decide) (by decide) (by decide) 0 (by decide)
    exact ⟨gc, h1, h2⟩
  · exact h.2 (Demo.mk "b" "Bill" "male" [] [] ["a"]) (by decide)
      (by intro x hx; exact absurd hx (List.not_mem_nil x))

/-! ### Path-search lemmas (C9, C10) -/

theorem firstSome_eq_some {α β : Type} {f : α → Option β} :
    ∀ {l : List α} {b : β}, Relationships.firstSome f l = some b →
      ∃ a ∈ l, f a = some b := by
  intro l
  induction l with
  | nil => intro b h; simp [Relationships.firstSome] at h
  | cons a t ih =>
    intro b h
    rw [Relationships.firstSome] at h
    cases hfa : f a with
    | some b2 =>
      rw [hfa] at h
      exact ⟨a, List.mem_cons_self _ _, by rw [hfa]; exact h⟩
    | none =>
      rw [hfa] at h
      obtain ⟨a2, ha2, hf2⟩ := ih h
      exact ⟨a2, List.mem_cons_of_mem _ ha2, hf2⟩

theorem firstSome_forall {α β : Type} {f : α → Option β} {l : List α} {b : β}
    (P : β → Prop) (hf : ∀ a ∈ l, ∀ b2, f a = some b2 → P b2)
    (h : Relationships.firstSome f l = some b) : P b := by
  obtain ⟨a, ha, hfa⟩ := firstSome_eq_some h
  exact hf a ha b hfa

theorem findPath_some_reaches (people : List Person) :
    ∀ (fuel : Nat) (fromId toId : String) (visited path : List String)
      (r : List String),
      Relationships.findPath people fuel fromId toId visited path = some r →
      Reaches people fromId toId := by
  intro fuel
  induction fuel with
  | zero => intro fromId toId visited path r h; simp [Relationships.findPath] at h
  | succ f ih =>
    intro fromId toId visited path r h
    rw [Relationships.findPath] at h
    by_cases heq : fromId = toId
    · subst heq
      exact Reaches.refl fromId
    · rw [if_neg heq] at h
      by_cases hv : visited.contains fromId
      · rw [if_pos hv] at h
        simp at h
      · rw [if_neg hv] at h
        cases hf : findById people fromId with
        | none => rw [hf] at h; simp at h
        | some current =>
          rw [hf] at h
          have hcur_mem : current ∈ people := List.mem_of_find?_eq_some hf
          have hcur_id : current.id = fromId := by
            have := List.find?_some hf
            simpa using this
          obtain ⟨nid, hnid, hrec⟩ := firstSome_eq_some h
          exact Reaches.step nid current hcur_mem hcur_id hnid (ih _ _ _ _ _ hrec)

/-- C9: for a pair of distinct persons with no connecting chain of
parent/child/spouse references through present persons, `findRelationship`
returns exactly the terminal "No direct relationship found" result with the
empty path (the total embedding also shows the code cannot throw here). -/
theorem C9_disconnected_result (people : List Person) (p1 p2 : Person)
    (hne : p1.id ≠ p2.id) (hnr : ¬ Reaches people p1.id p2.id) :
    Relationships.findRelationship people p1 p2 =
      ⟨"No direct relationship found", "நேரடி உறவு இல்லை", []⟩ := by
  unfold Relationships.findRelationship
  rw [if_neg hne]
  cases hf : Relationships.findPath people (Relationships.pathFuel people)
      p1.id p2.id [] [] with
  | none => rfl
  | some r =>
    exact absurd (findPath_some_reaches people _ _ _ _ _ _ hf) hnr

theorem islands_reaches (a b : String) (h : Reaches Demo.islands a b) : a = b := by
  induction h with
  | refl => rfl
  | step b2 p hp hid hb _ ih =>
    have harr : p.parentIds ++ p.childIds ++ p.spouseIds = ([] : List String) := by
      rcases List.mem_cons.1 hp with rfl | hp2
      · rfl
      · rcases List.mem_cons.1 hp2 with rfl | hp3
        · rfl
        · simp at hp3
    rw [harr] at hb
    exact absurd hb (List.not_mem_nil b2)

/-- C9, witness: the two unrelated persons of `Demo.islands`. -/
theorem C9_disconnected_result_witness :
    Relationships.findRelationship Demo.islands
        (Demo.mk "a" "Amy" "female" [] [] [])
        (Demo.mk "z" "Zoe" "female" [] [] []) =
      ⟨"No direct relationship found", "நேரடி உறவு இல்லை", []⟩ := by
  apply C9_disconnected_result
  · decide
  · intro h
    exact absurd (islands_reaches _ _ h) (by decide)

theorem findPath_props (people : List Person) :
    ∀ (fuel : Nat) (fromId toId : String) (visited path : List String)
      (r : List String),
      Relationships.findPath people fuel fromId toId visited path = some r →
      (∀ x ∈ path, x ∈ visited) →
      toId ∉ visited →
      path.Nodup →
      (∀ x ∈ path, ∃ p ∈ people, p.id = x) →
      List.Chain' (Adj people) (path ++ [fromId]) →
      (∃ tail, r = path ++ fromId :: tail) ∧
        r.getLast? = some toId ∧ r.Nodup ∧
        (∀ x ∈ r.dropLast, ∃ p ∈ people, p.id = x) ∧
        List.Chain' (Adj people) r := by
  intro fuel
  induction fuel with
  | zero => intro fromId toId visited path r h; simp [Relationships.findPath] at h
  | succ f ih =>
    intro fromId toId visited path r h hpv htv hnd hpres hchain
    rw [Relationships.findPath] at h
    by_cases heq : fromId = toId
    · rw [if_pos heq] at h
      have hr : r = path ++ [fromId] := (Option.some.inj h).symm
      subst hr
      have htp : fromId ∉ path := by
        intro hin
        rw [heq] at hin
        exact htv (hpv toId hin)
      refine ⟨⟨[], rfl⟩, ?_, ?_, ?_, ?_⟩
      · rw [List.getLast?_concat, heq]
      · rw [List.nodup_append]
        exact ⟨hnd, List.nodup_singleton _,
          fun a ha hb => htp ((List.mem_singleton.1 hb) ▸ ha)⟩
      · rw [List.dropLast_concat]
        exact hpres
      · exact hchain
    · rw [if_neg heq] at h
      by_cases hv : visited.contains fromId
      · rw [if_pos hv] at h
        simp at h
      · rw [if_neg hv] at h
        cases hf : findById people fromId with
        | none => rw [hf] at h; simp at h
        | some current =>
          rw [hf] at h
          have hcur_mem : current ∈ people := List.mem_of_find?_eq_some hf
          have hcur_id : current.id = fromId := by
            have := List.find?_some hf
            simpa using this
          have hfv : fromId ∉ visited := by
            intro hin
            exact hv (contains_iff_mem.2 hin)
          obtain ⟨nid, hnid, hrec⟩ := firstSome_eq_some h
          have hadj : Adj people fromId nid := by
            refine ⟨current, hcur_mem, hcur_id, ?_⟩
            rcases List.mem_append.1 hnid with h1 | h1
            · rcases List.mem_append.1 h1 with h2 | h2
              · exact Or.inl h2
              · exact Or.inr (Or.inl h2)
            · exact Or.inr (Or.inr h1)
          have hres := ih nid toId (fromId :: visited) (path ++ [fromId]) r hrec
            (by
              intro x hx
              rcases List.mem_append.1 hx with h1 | h1
              · exact List.mem_cons_of_mem _ (hpv x h1)
              · rw [List.mem_singleton.1 h1]
                exact List.mem_cons_self _ _)
            (by
              intro hin
              rcases List.mem_cons.1 hin with h1 | h1
              · exact heq h1.symm
              · exact htv h1)
            (by
              rw [List.nodup_append]
              exact ⟨hnd, List.nodup_singleton _,
                fun a ha hb => hfv ((List.mem_singleton.1 hb) ▸ hpv a ha)⟩)
            (by
              intro x hx
              rcases List.mem_append.1 hx with h1 | h1
              · exact hpres x h1
              · exact ⟨current, hcur_mem, by rw [List.mem_singleton.1 h1, hcur_id]⟩)
            (by
              rw [List.chain'_append]
              refine ⟨hchain, List.chain'_singleton _, ?_⟩
              intro x hx y hy
              rw [List.getLast?_concat] at hx
              simp only [List.head?_cons, Option.mem_def, Option.some.injEq] at hx hy
              rw [← hx, ← hy]
              exact hadj)
          obtain ⟨⟨tail, htail⟩, hlast, hnodup, hpres2, hchain2⟩ := hres
          refine ⟨⟨nid :: tail, ?_⟩, hlast, hnodup, hpres2, hchain2⟩
          rw [htail, List.append_assoc]
          rfl

theorem genderLabel_path {g : String} {a b c : Relationships.RelationshipResult}
    {pa : List String} (ha : a.path = pa) (hb : b.path = pa) (hc : c.path = pa) :
    (Relationships.genderLabel g a b c).path = pa := by
  unfold Relationships.genderLabel
  by_cases h1 : g = "male"
  · rw [if_pos h1]; exact ha
  · rw [if_neg h1]
    by_cases h2 : g = "female"
    · rw [if_pos h2]; exact hb
    · rw [if_neg h2]; exact hc

theorem optLabel_path {cond : Prop} [Decidable cond]
    {x r : Relationships.RelationshipResult} {pa : List String} (hx : x.path = pa)
    (h : (if cond then some x else none) = some r) : r.path = pa := by
  by_cases hc2 : cond
  · rw [if_pos hc2] at h
    rw [← Option.some.inj h]
    exact hx
  · rw [if_neg hc2] at h
    exact absurd h (by simp)

theorem ruleGrandparent_path {people : List Person} {p1 p2 : Person}
    {pa : List String} {r : Relationships.RelationshipResult}
    (h : Relationships.ruleGrandparent people p1 p2 pa = some r) : r.path = pa := by
  unfold Relationships.ruleGrandparent at h
  refine firstSome_forall (fun r => r.path = pa) ?_ h
  intro a _ r2 h2
  cases hfa : findById people a with
  | none =>
    rw [hfa] at h2
    exact Option.noConfusion h2
  | some parent =>
    simp only [hfa] at h2
    exact optLabel_path (genderLabel_path rfl rfl rfl) h2

theorem ruleGrandchild_path {people : List Person} {p1 p2 : Person}
    {pa : List String} {r : Relationships.RelationshipResult}
    (h : Relationships.ruleGrandchild people p1 p2 pa = some r) : r.path = pa := by
  unfold Relationships.ruleGrandchild at h
  refine firstSome_forall (fun r => r.path = pa) ?_ h
  intro a _ r2 h2
  cases hfa : findById people a with
  | none =>
    rw [hfa] at h2
    exact Option.noConfusion h2
  | some child =>
    simp only [hfa] at h2
    exact optLabel_path (genderLabel_path rfl rfl rfl) h2

theorem ruleGreatGrandparent_path {people : List Person} {p1 p2 : Person}
    {pa : List String} {r : Relationships.RelationshipResult}
    (h : Relationships.ruleGreatGrandparent people p1 p2 pa = some r) : r.path = pa := by
  unfold Relationships.ruleGreatGrandparent at h
  refine firstSome_forall (fun r => r.path = pa) ?_ h
  intro a _ r2 h2
  cases hfa : findById people a with
  | none =>
    rw [hfa] at h2
    exact Option.noConfusion h2
  | some parent =>
    simp only [hfa] at h2
    refine firstSome_forall (fun r => r.path = pa) ?_ h2
    intro a2 _ r3 h3
    cases hfb : findById people a2 with
    | none =>
      rw [hfb] at h3
      exact Option.noConfusion h3
    | some gp =>
      simp only [hfb] at h3
      exact optLabel_path (genderLabel_path rfl rfl rfl) h3

theorem ruleGreatGrandchild_path {people : List Person} {p1 p2 : Person}
    {pa : List String} {r : Relationships.RelationshipResult}
    (h : Relationships.ruleGreatGrandchild people p1 p2 pa = some r) : r.path = pa := by
  unfold Relationships.ruleGreatGrandchild at h
  refine firstSome_forall (fun r => r.path = pa) ?_ h
  intro a _ r2 h2
  cases hfa : findById people a with
  | none =>
    rw [hfa] at h2
    exact Option.noConfusion h2
  | some child =>
    simp only [hfa] at h2
    refine firstSome_forall (fun r => r.path = pa) ?_ h2
    intro a2 _ r3 h3
    cases hfb : findById people a2 with
    | none =>
      rw [hfb] at h3
      exact Option.noConfusion h3
    | some gc =>
      simp only [hfb] at h3
      exact optLabel_path (genderLabel_path rfl rfl rfl) h3

theorem ruleUncleAunt_path {people : List Person} {p1 p2 : Person}
    {pa : List String} {r : Relationships.RelationshipResult}
    (h : Relationships.ruleUncleAunt people p1 p2 pa = some r) : r.path = pa := by
  unfold Relationships.ruleUncleAunt at h
  refine firstSome_forall (fun r => r.path = pa) ?_ h
  intro a _ r2 h2
  cases hfa : findById people a with
  | none =>
    rw [hfa] at h2
    exact Option.noConfusion h2
  | some parent =>
    simp only [hfa] at h2
    by_cases hdirect :
        (Relationships.siblingsOf people a parent.parentIds).any (fun s => s.id = p2.id)
    · rw [if_pos hdirect] at h2
      rw [← Option.some.inj h2]
      repeat' split
      all_goals rfl
    · rw [if_neg hdirect] at h2
      refine firstSome_forall (fun r => r.path = pa) ?_ h2
      intro s _ r3 h3
      by_cases hsm : p2.id ∈ s.spouseIds
      · rw [if_pos hsm] at h3
        rw [← Option.some.inj h3]
        repeat' split
        all_goals rfl
      · rw [if_neg hsm] at h3
        exact absurd h3 (by simp)

theorem ruleNephewNiece_path {people : List Person} {p1 p2 : Person}
    {pa : List String} {r : Relationships.RelationshipResult}
    (h : Relationships.ruleNephewNiece people p1 p2 pa = some r) : r.path = pa := by
  unfold Relationships.ruleNephewNiece at h
  refine firstSome_forall (fun r => r.path = pa) ?_ h
  intro s _ r2 h2
  exact optLabel_path (genderLabel_path rfl rfl rfl) h2

theorem ruleCousin_path {people : List Person} {p1 p2 : Person}
    {pa : List String} {r : Relationships.RelationshipResult}
    (h : Relationships.ruleCousin people p1 p2 pa = some r) : r.path = pa := by
  unfold Relationships.ruleCousin at h
  refine firstSome_forall (fun r => r.path = pa) ?_ h
  intro a _ r2 h2
  cases hfa : findById people a with
  | none =>
    rw [hfa] at h2
    exact Option.noConfusion h2
  | some parent =>
    simp only [hfa] at h2
    refine firstSome_forall (fun r => r.path = pa) ?_ h2
    intro u _ r3 h3
    exact optLabel_path (genderLabel_path rfl rfl rfl) h3

theorem ruleParentInLaw_path {people : List Person} {p1 p2 : Person}
    {pa : List String} {r : Relationships.RelationshipResult}
    (h : Relationships.ruleParentInLaw people p1 p2 pa = some r) : r.path = pa := by
  unfold Relationships.ruleParentInLaw at h
  refine firstSome_forall (fun r => r.path = pa) ?_ h
  intro a _ r2 h2
  cases hfa : findById people a with
  | none =>
    rw [hfa] at h2
    exact Option.noConfusion h2
  | some spouse =>
    simp only [hfa] at h2
    exact optLabel_path (genderLabel_path rfl rfl rfl) h2

theorem ruleChildInLaw_path {people : List Person} {p1 p2 : Person}
    {pa : List String} {r : Relationships.RelationshipResult}
    (h : Relationships.ruleChildInLaw people p1 p2 pa = some r) : r.path = pa := by
  unfold Relationships.ruleChildInLaw at h
  refine firstSome_forall (fun r => r.path = pa) ?_ h
  intro a _ r2 h2
  cases hfa : findById people a with
  | none =>
    rw [hfa] at h2
    exact Option.noConfusion h2
  | some child =>
    simp only [hfa] at h2
    exact optLabel_path (genderLabel_path rfl rfl rfl) h2

theorem ruleSpouseSibling_path {people : List Person} {p1 p2 : Person}
    {pa : List String} {r : Relationships.RelationshipResult}
    (h : Relationships.ruleSpouseSibling people p1 p2 pa = some r) : r.path = pa := by
  unfold Relationships.ruleSpouseSibling at h
  refine firstSome_forall (fun r => r.path = pa) ?_ h
  intro a _ r2 h2
  cases hfa : findById people a with
  | none =>
    rw [hfa] at h2
    exact Option.noConfusion h2
  | some spouse =>
    simp only [hfa] at h2
    exact optLabel_path (genderLabel_path rfl rfl rfl) h2

theorem ruleSiblingSpouse_path {people : List Person} {p1 p2 : Person}
    {pa : List String} {r : Relationships.RelationshipResult}
    (h : Relationships.ruleSiblingSpouse people p1 p2 pa = some r) : r.path = pa := by
  unfold Relationships.ruleSiblingSpouse at h
  refine firstSome_forall (fun r => r.path = pa) ?_ h
  intro s _ r2 h2
  by_cases hsm : p2.id ∈ s.spouseIds
  · rw [if_pos hsm] at h2
    rw [← Option.some.inj h2]
    repeat' split
    all_goals rfl
  · rw [if_neg hsm] at h2
    exact absurd h2 (by simp)

theorem ruleCoSibling_path {people : List Person} {p1 p2 : Person}
    {pa : List String} {r : Relationships.RelationshipResult}
    (h : Relationships.ruleCoSibling people p1 p2 pa = some r) : r.path = pa := by
  unfold Relationships.ruleCoSibling at h
  refine firstSome_forall (fun r => r.path = pa) ?_ h
  intro a _ r2 h2
  cases hfa : findById people a with
  | none =>
    rw [hfa] at h2
    exact Option.noConfusion h2
  | some spouse =>
    simp only [hfa] at h2
    refine firstSome_forall (fun r => r.path = pa) ?_ h2
    intro s _ r3 h3
    by_cases hsm : p2.id ∈ s.spouseIds
    · rw [if_pos hsm] at h3
      by_cases hg1 : p2.gender = "male"
      · rw [if_pos hg1] at h3
        rw [← Option.some.inj h3]
      · rw [if_neg hg1] at h3
        by_cases hg2 : p2.gender = "female"
        · rw [if_pos hg2] at h3
          rw [← Option.some.inj h3]
        · rw [if_neg hg2] at h3
          exact absurd h3 (by simp)
    · rw [if_neg hsm] at h3
      exact absurd h3 (by simp)

theorem fallbackResult_path {people : List Person} {pa : List String} :
    (Relationships.fallbackResult people pa).path = pa := by
  simp only [Relationships.fallbackResult]
  repeat' split
  all_goals rfl

theorem findRelationship_path (people : List Person) (p1 p2 : Person)
    (hne : p1.id ≠ p2.id) {pa : List String}
    (hf : Relationships.findPath people (Relationships.pathFuel people)
      p1.id p2.id [] [] = some pa) :
    (Relationships.findRelationship people p1 p2).path = pa := by
  unfold Relationships.findRelationship
  rw [if_neg hne]
  simp only [hf]
  by_cases h1 : p2.id ∈ p1.spouseIds
  · rw [if_pos h1]
    exact genderLabel_path rfl rfl rfl
  · rw [if_neg h1]
    by_cases h2 : p2.id ∈ p1.parentIds
    · rw [if_pos h2]
      exact genderLabel_path rfl rfl rfl
    · rw [if_neg h2]
      by_cases h3 : p2.id ∈ p1.childIds
      · rw [if_pos h3]
        exact genderLabel_path rfl rfl rfl
      · rw [if_neg h3]
        by_cases h4 : (p1.parentIds.filter (fun pid => pid ∈ p2.parentIds)) ≠ []
        · rw [if_pos h4]
          exact genderLabel_path rfl rfl rfl
        · rw [if_neg h4]
          cases r5 : Relationships.ruleGrandparent people p1 p2 pa with
          | some r => simp only [r5]; exact ruleGrandparent_path r5
          | none =>
          simp only [r5]
          cases r6 : Relationships.ruleGrandchild people p1 p2 pa with
          | some r => simp only [r6]; exact ruleGrandchild_path r6
          | none =>
          simp only [r6]
          cases r7 : Relationships.ruleGreatGrandparent people p1 p2 pa with
          | some r => simp only [r7]; exact ruleGreatGrandparent_path r7
          | none =>
          simp only [r7]
          cases r8 : Relationships.ruleGreatGrandchild people p1 p2 pa with
          | some r => simp only [r8]; exact ruleGreatGrandchild_path r8
          | none =>
          simp only [r8]
          cases r9 : Relationships.ruleUncleAunt people p1 p2 pa with
          | some r => simp only [r9]; exact ruleUncleAunt_path r9
          | none =>
          simp only [r9]
          cases r10 : Relationships.ruleNephewNiece people p1 p2 pa with
          | some r => simp only [r10]; exact ruleNephewNiece_path r10
          | none =>
          simp only [r10]
          cases r11 : Relationships.ruleCousin people p1 p2 pa with
          | some r => simp only [r11]; exact ruleCousin_path r11
          | none =>
          simp only [r11]
          cases r12 : Relationships.ruleParentInLaw people p1 p2 pa with
          | some r => simp only [r12]; exact ruleParentInLaw_path r12
          | none =>
          simp only [r12]
          cases r13 : Relationships.ruleChildInLaw people p1 p2 pa with
          | some r => simp only [r13]; exact ruleChildInLaw_path r13
          | none =>
          simp only [r13]
          cases r14 : Relationships.ruleSpouseSibling people p1 p2 pa with
          | some r => simp only [r14]; exact ruleSpouseSibling_path r14
          | none =>
          simp only [r14]
          cases r15 : Relationships.ruleSiblingSpouse people p1 p2 pa with
          | some r => simp only [r15]; exact ruleSiblingSpouse_path r15
          | none =>
          simp only [r15]
          cases r16 : Relationships.ruleCoSibling people p1 p2 pa with
          | some r => simp only [r16]; exact ruleCoSibling_path r16
          | none =>
          simp only [r16]
          exact fallbackResult_path

/-- C10: whenever `findRelationship(people, A, B)` with distinct endpoints
returns a non-empty path, that path is simple and well-formed: it starts at
`A.id`, ends at `B.id`, repeats no id, every element except possibly the
last is the id of a present person, and every consecutive pair is linked by
the earlier node's stored `parentIds`/`childIds`/`spouseIds` arrays. -/
theorem C10_path_simple (people : List Person) (A B : Person)
    (hne : A.id ≠ B.id)
    (hnonempty : (Relationships.findRelationship people A B).path ≠ []) :
    (Relationships.findRelationship people A B).path.head? = some A.id ∧
    (Relationships.findRelationship people A B).path.getLast? = some B.id ∧
    (Relationships.findRelationship people A B).path.Nodup ∧
    (∀ x ∈ (Relationships.findRelationship people A B).path.dropLast,
      ∃ p ∈ people, p.id = x) ∧
    List.Chain' (Adj people) (Relationships.findRelationship people A B).path := by
  cases hf : Relationships.findPath people (Relationships.pathFuel people)
      A.id B.id [] [] with
  | none =>
    have hempty : (Relationships.findRelationship people A B).path = [] := by
      unfold Relationships.findRelationship
      rw [if_neg hne]
      simp only [hf]
    exact absurd hempty hnonempty
  | some pa =>
    have hpath : (Relationships.findRelationship people A B).path = pa :=
      findRelationship_path people A B hne hf
    obtain ⟨⟨tail, htail⟩, hlast, hnodup, hpres, hchain⟩ :=
      findPath_props people _ A.id B.id [] [] pa hf
        (by intro x hx; simp at hx)
        (by simp)
        List.nodup_nil
        (by intro x hx; simp at hx)
        (by simp)
    have hpa2 : pa = A.id :: tail := by
      rw [htail]
      rfl
    refine ⟨?_, ?_, ?_, ?_, ?_⟩
    · rw [hpath, hpa2]
      rfl
    · rw [hpath]
      exact hlast
    · rw [hpath]
      exact hnodup
    · rw [hpath]
      exact hpres
    · rw [hpath]
      exact hchain

/-- C10, witness: in `Demo.parentChild` the query from `b` to its child `a`
returns the non-empty path ["b", "a"], which satisfies all the simplicity
properties. -/
theorem C10_path_simple_witness :
    (Relationships.findRelationship Demo.parentChild
      (Demo.mk "b" "Bill" "male" [] [] ["a"])
      (Demo.mk "a" "Ava" "female" ["b"] [] [])).path.Nodup ∧
    (Relationships.findRelationship Demo.parentChild
      (Demo.mk "b" "Bill" "male" [] [] ["a"])
      (Demo.mk "a" "Ava" "female" ["b"] [] [])).path.head? = some "b" := by
  have h := C10_path_simple Demo.parentChild
    (Demo.mk "b" "Bill" "male" [] [] ["a"])
    (Demo.mk "a" "Ava" "female" ["b"] [] [])
    (by decide) (by decide)
  exact ⟨h.2.2.1, h.1⟩

/-- C8: when a path is found between distinct persons and none of the named
rules fires — no direct spouse/parent/child, no shared parent, and each of
the twelve structural rules (grand/great-grand in both directions,
uncle/aunt including by-marriage, nephew/niece, cousin, the four in-law
forms, co-sibling-in-law) yields nothing — `findRelationship` returns
exactly `fallbackResult`, which walks the found path summing −1 per parent
hop, +1 per child hop and 0 per spouse hop, labels magnitudes above 2 as
"Ancestor (N generations)" / "Descendant (N generations)" with N the
magnitude, otherwise "Relative by marriage" if some consecutive pair is
linked by a spousal edge, and otherwise "Relative". -/
theorem C8_fallback_classification (people : List Person) (p1 p2 : Person)
    (pa : List String) (hne : p1.id ≠ p2.id)
    (hf : Relationships.findPath people (Relationships.pathFuel people)
      p1.id p2.id [] [] = some pa)
    (h1 : p2.id ∉ p1.spouseIds)
    (h2 : p2.id ∉ p1.parentIds)
    (h3 : p2.id ∉ p1.childIds)
    (h4 : p1.parentIds.filter (fun pid => pid ∈ p2.parentIds) = [])
    (r5 : Relationships.ruleGrandparent people p1 p2 pa = none)
    (r6 : Relationships.ruleGrandchild people p1 p2 pa = none)
    (r7 : Relationships.ruleGreatGrandparent people p1 p2 pa = none)
    (r8 : Relationships.ruleGreatGrandchild people p1 p2 pa = none)
    (r9 : Relationships.ruleUncleAunt people p1 p2 pa = none)
    (r10 : Relationships.ruleNephewNiece people p1 p2 pa = none)
    (r11 : Relationships.ruleCousin people p1 p2 pa = none)
    (r12 : Relationships.ruleParentInLaw people p1 p2 pa = none)
    (r13 : Relationships.ruleChildInLaw people p1 p2 pa = none)
    (r14 : Relationships.ruleSpouseSibling people p1 p2 pa = none)
    (r15 : Relationships.ruleSiblingSpouse people p1 p2 pa = none)
    (r16 : Relationships.ruleCoSibling people p1 p2 pa = none) :
    Relationships.findRelationship people p1 p2 =
      Relationships.fallbackResult people pa := by
  unfold Relationships.findRelationship
  rw [if_neg hne]
  simp only [hf]
  rw [if_neg h1, if_neg h2, if_neg h3, if_neg (by simp [h4])]
  simp only [r5, r6, r7, r8, r9, r10, r11, r12, r13, r14, r15, r16]

/-- C8, witness: the five-person chain of `Demo.deepChain`, queried from the
bottom person `e` to the top person `a`, falls through every named rule and
yields the fallback "Ancestor (4 generations)". -/
theorem C8_fallback_classification_witness :
    Relationships.findRelationship Demo.deepChain
        (Demo.mk "e" "Eli" "male" ["d"] [] [])
        (Demo.mk "a" "Abe" "male" [] [] ["b"]) =
      Relationships.fallbackResult Demo.deepChain ["e", "d", "c", "b", "a"] := by
  exact C8_fallback_classification Demo.deepChain
    (Demo.mk "e" "Eli" "male" ["d"] [] [])
    (Demo.mk "a" "Abe" "male" [] [] ["b"])
    ["e", "d", "c", "b", "a"]
    (by decide) (by decide) (by decide) (by decide) (by decide) (by decide)
    (by decide) (by decide) (by decide) (by decide) (by decide) (by decide)
    (by decide) (by decide) (by decide) (by decide) (by decide) (by decide)
